import Mathlib

/-!
Verification development for the `azul` schema-driven binding generator
(`api/gen-api.py`).  The Python source is shallowly embedded below: Python
strings become `String` (represented through their character lists so that
every operation is executable and kernel-reducible), Python dicts become
ordered association lists with Python's assignment semantics, and Python
exceptions (`raise`, `KeyError`, `IndexError`, `TypeError`) become
`Except String`.  Output files are modelled as the emitted text.

Each definition is translated from the corresponding Python function and
keeps its name.  Definitions whose doc comment says they follow the
specification's words (rather than the source) are clearly marked.
-/

namespace AzGen

/-! ## Python string primitives (on character lists) -/

/-- Length of `dropWhile` never exceeds the input's length. -/
theorem len_dropWhile_le {α : Type} (p : α → Bool) (l : List α) :
    (l.dropWhile p).length ≤ l.length := by
  induction l with
  | nil => simp [List.dropWhile]
  | cons a t ih =>
    by_cases h : p a = true
    · simp [List.dropWhile, h]
      omega
    · simp [List.dropWhile, h]

/-- Python `str.replace(pat, rep)`, fuelled: each step consumes at least one
character, so fuel equal to the list length never runs out. -/
def replaceLF (pat rep : List Char) : Nat → List Char → List Char
  | _, [] => []
  | 0, c :: rest => c :: rest
  | fuel + 1, c :: rest =>
    if pat ≠ [] ∧ pat.isPrefixOf (c :: rest) then
      rep ++ replaceLF pat rep fuel ((c :: rest).drop pat.length)
    else
      c :: replaceLF pat rep fuel rest

/-- Python `str.replace(pat, rep)` for a nonempty pattern: replaces every
leftmost, non-overlapping occurrence of `pat` by `rep`. -/
def replaceL (pat rep : List Char) (l : List Char) : List Char :=
  replaceLF pat rep l.length l

/-- Python `str.replace` lifted to `String`. -/
def strReplace (s pat rep : String) : String := ⟨replaceL pat.data rep.data s.data⟩

/-- Whitespace characters stripped by Python `str.strip()` (ASCII range). -/
def isWS (c : Char) : Bool :=
  (c = ' ') || (c = '\t') || (c = '\n') || (c = '\x0d') || (c = '\x0b') || (c = '\x0c')

/-- Strip leading whitespace. -/
def stripLeftL (l : List Char) : List Char := l.dropWhile isWS

/-- Strip trailing whitespace. -/
def stripRightL (l : List Char) : List Char := (l.reverse.dropWhile isWS).reverse

/-- Python `str.strip()`. -/
def strStrip (s : String) : String := ⟨stripRightL (stripLeftL s.data)⟩

/-- Python `str.startswith`. -/
def strStartsWith (s p : String) : Bool := p.data.isPrefixOf s.data

/-- Python `str.endswith`. -/
def strEndsWith (s p : String) : Bool := p.data.isSuffixOf s.data

/-- Contiguous-sublist test on character lists. -/
def infixOfL (sub : List Char) : List Char → Bool
  | [] => sub.isEmpty
  | c :: t => sub.isPrefixOf (c :: t) || infixOfL sub t

/-- Python `sub in s` substring containment. -/
def strContains (s sub : String) : Bool := infixOfL sub.data s.data

/-- Python `s[n:]`. -/
def strDrop (s : String) (n : Nat) : String := ⟨s.data.drop n⟩

/-- Python `s[:-n]` (for `n ≤ len`, otherwise empty). -/
def strDropRight (s : String) (n : Nat) : String := ⟨s.data.take (s.data.length - n)⟩

/-- Python `str.lower()` (ASCII). -/
def strLower (s : String) : String := ⟨s.data.map Char.toLower⟩

/-- Python `str.split(";")` on character lists: splits at every semicolon. -/
def pySplitSemi : List Char → List (List Char)
  | [] => [[]]
  | c :: rest =>
    if c = ';' then [] :: pySplitSemi rest
    else
      match pySplitSemi rest with
      | [] => [[c]]
      | h :: r => (c :: h) :: r

/-- Concatenation of a list of strings (Python `+=` accumulation). -/
def strJoin : List String → String
  | [] => ""
  | s :: r => s ++ strJoin r

/-! ## Ordered dictionaries with Python assignment semantics -/

/-- A Python (ordered) dict with string keys: an association list; assignment
to an existing key updates in place, a new key is appended at the end. -/
abbrev AList (α : Type) := List (String × α)

/-- Python `d[k]` as an `Option` (first matching key). -/
def alookup {α : Type} : AList α → String → Option α
  | [], _ => none
  | (k, v) :: r, key => if k = key then some v else alookup r key

/-- Python `k in d`. -/
def alContains {α : Type} (m : AList α) (k : String) : Bool := (alookup m k).isSome

/-- Python `d[k] = v`. -/
def ainsert {α : Type} : AList α → String → α → AList α
  | [], k, v => [(k, v)]
  | (k', v') :: r, k, v => if k' = k then (k', v) :: r else (k', v') :: ainsert r k v

/-- Python `list(d.keys())`. -/
def alKeys {α : Type} (m : AList α) : List String := m.map Prod.fst

/-- Position of the first occurrence of a key in a list of keys. -/
def keyIndex : List String → String → Nat
  | [], _ => 0
  | x :: r, k => if x = k then 0 else keyIndex r k + 1

/-- Python `d.get(o)` on an optional value that raises on `None`. -/
def keyGet {α : Type} (o : Option α) (msg : String) : Except String α :=
  match o with
  | some v => .ok v
  | none => .error msg

/-- Decidable equality on fallible results, so concrete runs can be checked
by `decide`. -/
instance {ε α : Type} [DecidableEq ε] [DecidableEq α] : DecidableEq (Except ε α) :=
  fun x y =>
    match x, y with
    | .ok a, .ok b =>
      if h : a = b then isTrue (by rw [h]) else isFalse (fun hc => by cases hc; exact h rfl)
    | .error a, .error b =>
      if h : a = b then isTrue (by rw [h]) else isFalse (fun hc => by cases hc; exact h rfl)
    | .ok _, .error _ => isFalse (fun hc => by cases hc)
    | .error _, .ok _ => isFalse (fun hc => by cases hc)

/-- Fold a fallible step function over a list, stopping at the first error
(the shape of every loop in the generator that can raise). -/
def exceptFold {σ α : Type} (f : σ → α → Except String σ) : σ → List α → Except String σ
  | s, [] => .ok s
  | s, x :: r =>
    match f s x with
    | .ok s' => exceptFold f s' r
    | .error e => .error e

/-! ## Source constants and leaf helpers (`gen-api.py` lines 14-19, 76-119) -/

/-- Source constant `prefix = "Az"`. -/
def az_pfx : String := "Az"

/-- Source list `basic_types`. -/
def basic_types : List String :=
  ["bool", "char", "f32", "f64", "fn", "i128", "i16",
   "i32", "i64", "i8", "isize", "slice", "u128", "u16",
   "u32", "u64", "u8", "()", "usize", "c_void"]

/-- First regex pass of `to_snake_case`, fuelled (each step consumes at least
one character). -/
def snakeSub1F : Nat → List Char → List Char
  | _, [] => []
  | _, [a] => [a]
  | 0, a :: b :: rest => a :: b :: rest
  | fuel + 1, a :: b :: rest =>
    if b.isUpper && (match rest with | c :: _ => c.isLower | [] => false) then
      a :: '_' :: b :: (rest.takeWhile Char.isLower ++ snakeSub1F fuel (rest.dropWhile Char.isLower))
    else
      a :: snakeSub1F fuel (b :: rest)

/-- Source `to_snake_case`, first regex pass: `re.sub('(.)([A-Z][a-z]+)', r'\1_\2', name)`. -/
def snakeSub1 (l : List Char) : List Char := snakeSub1F l.length l

/-- Source `to_snake_case`, second regex pass: `re.sub('([a-z0-9])([A-Z])', r'\1_\2', s1)`. -/
def snakeSub2 : List Char → List Char
  | [] => []
  | [a] => [a]
  | a :: b :: rest =>
    if (a.isLower || a.isDigit) && b.isUpper then
      a :: '_' :: b :: snakeSub2 rest
    else
      a :: snakeSub2 (b :: rest)

/-- Source `to_snake_case` (lines 76-78). -/
def to_snake_case (name : String) : String :=
  strLower ⟨snakeSub2 (snakeSub1 name.data)⟩

/-- Source `get_stripped_arg` (lines 112-119): note the source replaces
`"&"` before `"&mut"` (making the second replace a no-op) and replaces
`"*const"` twice, exactly as written. -/
def get_stripped_arg (arg : String) : String :=
  strStrip (strReplace (strReplace (strReplace (strReplace (strReplace arg
    "&" "") "&mut" "") "*const" "") "*const" "") "*mut" "")

/-- Source `is_primitive_arg` (lines 109-110). -/
def is_primitive_arg (arg : String) : Bool :=
  basic_types.contains (get_stripped_arg arg)

/-- Source `analyze_type` (lines 225-256).  Returns `[starts, arg_type, ends]`
as a triple.  The trailing-array branch raises `IndexError` when the bracketed
remainder has no `";"`, exactly as the Python does on e.g. `"[u8]"`. -/
def analyze_type (arg : String) : Except String (String × String × String) :=
  let (starts, argType0) :=
    if strStartsWith arg "&mut" then ("&mut ", strReplace arg "&mut" "")
    else if strStartsWith arg "&" then ("&", strReplace arg "&" "")
    else if strStartsWith arg "*const" then ("*const ", strReplace arg "*const" "")
    else if strStartsWith arg "*mut" then ("*mut ", strReplace arg "*mut" "")
    else ("", arg)
  let argType := strStrip argType0
  if strStartsWith argType "[" && strEndsWith argType "]" then
    match pySplitSemi (strDrop argType 1).data with
    | a0 :: a1 :: _ => .ok (starts ++ "[", (⟨a0⟩ : String), ";" ++ (⟨a1⟩ : String))
    | _ => .error "IndexError: list index out of range"
  else
    .ok (starts, argType, "")

/-! ## The schema data model

A Python JSON object is modelled by a structure whose `Option` fields record
which keys are present; keys not consulted anywhere by the generator are
collected in `extraKeys` (only key membership is ever tested on them). -/

/-- A struct-field or enum-variant value object: a dict with an optional
`"type"` key. -/
structure FieldVal where
  type? : Option String := none
deriving DecidableEq

/-- A constructor or method object (`"constructors"` / `"functions"` values). -/
structure ApiFn where
  fn_args : Option (List (String × String)) := none
  fn_body : String := ""
  returns : Option String := none
  doc : Option String := none
  use_patches : Option (List String) := none
deriving DecidableEq

/-- A class (entity) object of the schema. -/
structure ApiClass where
  external : Option String := none
  struct_fields : Option (List (String × FieldVal)) := none
  enum_fields : Option (List (String × FieldVal)) := none
  typedef : Option Bool := none
  const : Option String := none
  doc : Option String := none
  derive : Option (List String) := none
  clone : Option Bool := none
  rust_class_name : Option String := none
  use_patches : Option (List String) := none
  is_boxed_object : Option Bool := none
  destructor : Option String := none
  constructors : Option (List (String × ApiFn)) := none
  functions : Option (List (String × ApiFn)) := none
  extraKeys : List String := []
deriving DecidableEq

/-- A module object: optional doc plus the ordered class map. -/
structure ApiModule where
  doc : Option String := none
  classes : List (String × ApiClass) := []
deriving DecidableEq

/-- One schema version: ordered module map. -/
abbrev ApiData := List (String × ApiModule)

/-- Python `k in c` for a class dict (standard keys plus unmodelled ones). -/
def apiClassHasKey (c : ApiClass) (k : String) : Bool :=
  (k = "external" && c.external.isSome) ||
  (k = "struct_fields" && c.struct_fields.isSome) ||
  (k = "enum_fields" && c.enum_fields.isSome) ||
  (k = "typedef" && c.typedef.isSome) ||
  (k = "const" && c.const.isSome) ||
  (k = "doc" && c.doc.isSome) ||
  (k = "derive" && c.derive.isSome) ||
  (k = "clone" && c.clone.isSome) ||
  (k = "rust_class_name" && c.rust_class_name.isSome) ||
  (k = "use_patches" && c.use_patches.isSome) ||
  (k = "is_boxed_object" && c.is_boxed_object.isSome) ||
  (k = "destructor" && c.destructor.isSome) ||
  (k = "constructors" && c.constructors.isSome) ||
  (k = "functions" && c.functions.isSome) ||
  c.extraKeys.contains k

/-- Python `"x" in c["use_patches"]` guard on a class (false when the
`use_patches` key is absent; the source always tests presence first). -/
def classPatchMarked (c : ApiClass) (api : String) : Bool :=
  match c.use_patches with
  | some l => l.contains api
  | none => false

/-- Python `"x" in f["use_patches"]` guard on a function object. -/
def fnPatchMarked (f : ApiFn) (api : String) : Bool :=
  match f.use_patches with
  | some l => l.contains api
  | none => false

/-- Patch tables (`dll_patches` etc.): opaque override text keyed by a scope
path tuple.  The text itself is external input. -/
abbrev PatchMap := List (List String × String)

/-- Python `patches[key]` / `key in patches` lookup. -/
def patch_get : PatchMap → List String → Option String
  | [], _ => none
  | (k, v) :: r, key => if k = key then some v else patch_get r key

/-! ## Classifier and registry (`gen-api.py` lines 258-310) -/

/-- Source `class_is_small_enum` (lines 258-259). -/
def class_is_small_enum (c : ApiClass) : Bool := c.enum_fields.isSome

/-- Source `class_is_small_struct` (lines 261-262). -/
def class_is_small_struct (c : ApiClass) : Bool := c.struct_fields.isSome

/-- Source `class_is_typedef` (lines 264-265): key presence only. -/
def class_is_typedef_key (c : ApiClass) : Bool := c.typedef.isSome

/-- Source `class_is_stack_allocated` (lines 267-269). -/
def class_is_stack_allocated (c : ApiClass) : Bool :=
  let class_is_boxed_object :=
    !(c.external.isSome &&
      (c.struct_fields.isSome || c.enum_fields.isSome || c.typedef.isSome || c.const.isSome))
  !class_is_boxed_object

/-- Inner loop of `search_for_class_by_rust_class_name`: scan one module's
classes in declaration order. -/
def search_in_classes (module_name searched : String) :
    List (String × ApiClass) → Option (String × String)
  | [] => none
  | (class_name, c) :: rest =>
    let rust_class_name := c.rust_class_name.getD class_name
    if rust_class_name = searched || class_name = searched then some (module_name, class_name)
    else search_in_classes module_name searched rest

/-- Source `search_for_class_by_rust_class_name` (lines 274-285): scan modules
in declaration order, classes in declaration order, first name/alias match. -/
def search_for_class_by_rust_class_name : ApiData → String → Option (String × String)
  | [], _ => none
  | (module_name, m) :: rest, searched =>
    match search_in_classes module_name searched m.classes with
    | some r => some r
    | none => search_for_class_by_rust_class_name rest searched

/-- Source `get_class` (lines 287-288). -/
def get_class (apiData : ApiData) (module_name class_name : String) : Option ApiClass :=
  match alookup apiData module_name with
  | some m => alookup m.classes class_name
  | none => none

/-! ## Argument lowering (`fn_args_c_api`, lines 185-223) -/

/-- One step of the `fn_args` loop of `fn_args_c_api`: skip `self`, analyze
the type, keep primitives verbatim, otherwise resolve through the registry
(raising `Exception("type not found: ...")` on failure). -/
def fnArgsStep (apiData : ApiData) (acc : String) (arg : String × String) :
    Except String String :=
  if arg.1 = "self" then .ok acc
  else
    match analyze_type arg.2 with
    | .error e => .error e
    | .ok (ptr_type, arg_type, _) =>
      if is_primitive_arg arg_type then
        .ok (acc ++ arg.1 ++ ": " ++ ptr_type ++ arg_type ++ ", ")
      else
        match search_for_class_by_rust_class_name apiData arg_type with
        | none => .error ("type not found: " ++ arg_type)
        | some (_, found_class_name) =>
          .ok (acc ++ arg.1 ++ ": " ++ ptr_type ++ az_pfx ++ found_class_name ++ ", ")

/-- The `self`-receiver part of `fn_args_c_api` (lines 188-199): reads the
first argument's value; `KeyError`/`IndexError` when `fn_args` is missing or
empty, `Exception("wrong self value ...")` on an unknown tag. -/
def fnArgsSelfPart (f : ApiFn) (class_name class_ptr_name : String) :
    Except String String :=
  match f.fn_args with
  | none => .error "KeyError: fn_args"
  | some [] => .error "IndexError: list index out of range"
  | some ((_, self_val) :: _) =>
    if self_val = "value" then
      .ok (strLower class_name ++ ": " ++ class_ptr_name ++ ", ")
    else if self_val = "mut value" then
      .ok ("mut " ++ strLower class_name ++ ": " ++ class_ptr_name ++ ", ")
    else if self_val = "refmut" then
      .ok (strLower class_name ++ ": &mut " ++ class_ptr_name ++ ", ")
    else if self_val = "ref" then
      .ok (strLower class_name ++ ": &" ++ class_ptr_name ++ ", ")
    else .error ("wrong self value " ++ self_val)

/-- Source `fn_args_c_api` (lines 185-223). -/
def fn_args_c_api (f : ApiFn) (class_name class_ptr_name : String)
    (self_as_first_arg : Bool) (apiData : ApiData) : Except String String :=
  match (if self_as_first_arg then fnArgsSelfPart f class_name class_ptr_name
      else .ok "") with
  | .error e => .error e
  | .ok fn_args =>
    match f.fn_args with
    | some args =>
      match exceptFold (fnArgsStep apiData) fn_args args with
      | .error e => .error e
      | .ok r => .ok (strDropRight r 2)
    | none => .ok fn_args

/-! ## The structs map and the dependency sequencer
(`sort_structs_map`, lines 738-836) -/

/-- An entry of the `structs_map` dict handed to `sort_structs_map`.  The
sequencer consults the keys `typedef`, `is_boxed_object`, `struct` and
`enum`; `generate_rust_dll` additionally stores `external`, `derive` and
`doc`. -/
structure SMEntry where
  typedef : Option Bool := none
  is_boxed_object : Option Bool := none
  external : Option String := none
  derive : Option (List String) := none
  doc : Option String := none
  struct : Option (List (String × FieldVal)) := none
  enum : Option (List (String × FieldVal)) := none
deriving DecidableEq

/-- The structs map: class-pointer name to entry, in insertion order. -/
abbrev SMap := AList SMEntry

/-- Source `forward_delcarations` (line 743; the source's spelling is kept):
when encountering a field of a type in this dict's key set, the dependency
check is skipped. -/
def forward_delcarations : AList String := [("DomVec", "Dom")]

/-- One field of the pass-0 struct loop (lines 758-763): the base type is
prefixed with `"Az"` before the primitive test. -/
def pass0FieldStep (acc : Bool) (field : String × FieldVal) : Except String Bool :=
  match field.2.type? with
  | none => .error "KeyError: type"
  | some t =>
    match analyze_type t with
    | .error e => .error e
    | .ok a => .ok (acc && is_primitive_arg (az_pfx ++ a.2.1))

/-- One variant of the pass-0 enum loop (lines 766-772). -/
def pass0VariantStep (acc : Bool) (variant : String × FieldVal) : Except String Bool :=
  match variant.2.type? with
  | some t =>
    match analyze_type t with
    | .error e => .error e
    | .ok a => .ok (acc && is_primitive_arg (az_pfx ++ a.2.1))
  | none => .ok acc

/-- Pass-0 admission check of `sort_structs_map` (lines 749-774): typedef and
boxed-object entries pass; struct/enum entries pass only when every
field/payload type, after prefixing with `"Az"`, is primitive; entries with
none of the four keys raise. -/
def pass0Check (class_name : String) (clazz : SMEntry) : Except String Bool :=
  let found_c_is_typedef := clazz.typedef.getD false
  let found_c_is_boxed_object := clazz.is_boxed_object.getD false
  if found_c_is_typedef || found_c_is_boxed_object then .ok true
  else
    match clazz.struct with
    | some fields => exceptFold pass0FieldStep true fields
    | none =>
      match clazz.enum with
      | some variants => exceptFold pass0VariantStep true variants
      | none =>
        .error ("sort_structs_map: not enum nor struct nor typedef" ++ class_name)

/-- One field of the worklist struct loop (lines 798-807). -/
def passNFieldStep (sorted_class_map : SMap) (acc : Bool) (field : String × FieldVal) :
    Except String Bool :=
  match field.2.type? with
  | none => .error "KeyError: type"
  | some t =>
    match analyze_type t with
    | .error e => .error e
    | .ok a =>
      if !(is_primitive_arg a.2.1) && !(alContains forward_delcarations a.2.1) then
        .ok (acc && alContains sorted_class_map (az_pfx ++ a.2.1))
      else
        .ok acc

/-- One variant of the worklist enum loop (lines 810-818). -/
def passNVariantStep (sorted_class_map : SMap) (acc : Bool) (variant : String × FieldVal) :
    Except String Bool :=
  match variant.2.type? with
  | some t =>
    match analyze_type t with
    | .error e => .error e
    | .ok a =>
      if !(is_primitive_arg a.2.1) && !(alContains forward_delcarations a.2.1) then
        .ok (acc && alContains sorted_class_map (az_pfx ++ a.2.1))
      else
        .ok acc
  | none => .ok acc

/-- Worklist-pass admission check (lines 788-820): typedef entries pass; a
struct/enum entry passes when every non-primitive field/payload base type
that is not a key of `forward_delcarations` is, after prefixing, already in
the sorted map. -/
def passNCheck (sorted_class_map : SMap) (class_name : String) (clazz : SMEntry) :
    Except String Bool :=
  let found_c_is_typedef := clazz.typedef.getD false
  if found_c_is_typedef then .ok true
  else
    match clazz.struct with
    | some fields => exceptFold (passNFieldStep sorted_class_map) true fields
    | none =>
      match clazz.enum with
      | some variants => exceptFold (passNVariantStep sorted_class_map) true variants
      | none =>
        .error ("sort_structs_map: not enum nor struct " ++ class_name)

/-- One pass-0 step: admit into the sorted map or defer to `classes_not_found`. -/
def pass0Step (acc : SMap × SMap) (entry : String × SMEntry) :
    Except String (SMap × SMap) :=
  match pass0Check entry.1 entry.2 with
  | .error e => .error e
  | .ok should_insert =>
    if should_insert then
      .ok (ainsert acc.1 entry.1 entry.2, acc.2)
    else
      .ok (acc.1, ainsert acc.2 entry.1 entry.2)

/-- Pass 0 of `sort_structs_map` (lines 747-779). -/
def sortPass0 (structs_map : SMap) : Except String (SMap × SMap) :=
  exceptFold pass0Step ([], []) structs_map

/-- One worklist step: the admission check reads the live sorted map, which
grows during the pass. -/
def passNStep (acc : SMap × SMap) (entry : String × SMEntry) :
    Except String (SMap × SMap) :=
  match passNCheck acc.1 entry.1 entry.2 with
  | .error e => .error e
  | .ok should_insert =>
    if should_insert then
      .ok (ainsert acc.1 entry.1 entry.2, acc.2)
    else
      .ok (acc.1, ainsert acc.2 entry.1 entry.2)

/-- One full worklist pass over `classes_not_found` (lines 786-825). -/
def sortPassN (sorted_class_map classes_not_found : SMap) :
    Except String (SMap × SMap) :=
  exceptFold passNStep (sorted_class_map, []) classes_not_found

/-- Python's rendering of the unresolved keys in the iteration-cap message
(approximating `str(odict_keys([...]))`). -/
def renderKeys (m : SMap) : String :=
  "odict_keys([" ++ strJoin ((alKeys m).map (fun k => "'" ++ k ++ "', ")) ++ "])"

/-- The iteration-cap exception message of line 834. -/
def cyclic_msg (current_classes_not_found : SMap) : String :=
  "infinite recursion detected in sort_structs_map: " ++
    toString current_classes_not_found.length ++ " unresolved structs = " ++
    renderKeys current_classes_not_found ++ "\x0d\n"

/-- The worklist loop (lines 783-834).  `fuel` counts the remaining allowed
iterations: the Python loop raises once `iteration_count` exceeds 500, so the
loop always terminates and is modelled with initial fuel 500. -/
def sortLoop : Nat → SMap → SMap → Except String SMap
  | fuel, sorted_class_map, classes_not_found =>
    if classes_not_found.isEmpty then .ok sorted_class_map
    else
      match sortPassN sorted_class_map classes_not_found with
      | .error e => .error e
      | .ok (sorted', current_classes_not_found) =>
        match fuel with
        | 0 => .error (cyclic_msg current_classes_not_found)
        | Nat.succ fuel' => sortLoop fuel' sorted' current_classes_not_found

/-- Source `sort_structs_map` (lines 738-836): pass 0, then the capped
worklist loop; returns the sorted map together with `forward_delcarations`. -/
def sort_structs_map (structs_map : SMap) : Except String (SMap × AList String) := do
  let (sorted_class_map, classes_not_found) ← sortPass0 structs_map
  let out ← sortLoop 500 sorted_class_map classes_not_found
  pure (out, forward_delcarations)

/-! ## The interchange-layer emitter (`generate_rust_dll`, lines 423-729)

The function accumulates the emitted Rust text in `code`, the boundary type
descriptions in `structs_map` and the flat function signatures in
`functions_map`; the three are threaded through the module/class/function
loops below exactly as the Python mutates them.  Loop bodies that only touch
some of the three variables are passed only those. -/

/-- The mutable state of `generate_rust_dll`. -/
structure GenState where
  code : String
  structs_map : SMap
  functions_map : AList (String × String)
deriving DecidableEq

instance : Inhabited GenState := ⟨⟨"", [], []⟩⟩

/-- Constructor body selection (lines 530-542): a registered and marked
member-scope patch replaces the body; otherwise stack-allocated classes use
the schema body verbatim and boxed classes box the constructed object. -/
def constructor_fn_body (patches : PatchMap) (module_name class_name fn_name : String)
    (const : ApiFn) (c_is_stack_allocated : Bool)
    (rust_class_name class_ptr_name : String) : String :=
  let default_body :=
    if c_is_stack_allocated then const.fn_body
    else
      "let object: " ++ rust_class_name ++ " = " ++ const.fn_body ++ "; " ++
      "let ptr = Box::into_raw(Box::new(object)) as *mut c_void; " ++
      class_ptr_name ++ " \x7b ptr \x7d"
  match patch_get patches [module_name, class_name, fn_name] with
  | some p => if fnPatchMarked const "dll" then p else default_body
  | none => default_body

/-- Method body selection (lines 576-582). -/
def function_fn_body (patches : PatchMap) (module_name class_name fn_name : String)
    (f : ApiFn) : String :=
  match patch_get patches [module_name, class_name, fn_name] with
  | some p => if fnPatchMarked f "dll" then p else f.fn_body
  | none => f.fn_body

/-- Constructor return type lowering (lines 550-561); on an unresolvable
non-primitive return type the Python prints a diagnostic and then crashes
with `TypeError` on the `None` subscript, modelled as an error. -/
def constructor_returns (apiData : ApiData) (class_ptr_name : String) (const : ApiFn) :
    Except String String :=
  match const.returns with
  | none => .ok class_ptr_name
  | some return_type =>
    match analyze_type return_type with
    | .error e => .error e
    | .ok (starts, base, ends) =>
      if is_primitive_arg base then .ok return_type
      else
        match search_for_class_by_rust_class_name apiData base with
        | none => .error ("rust-dll: (line 549): no return_type_class found for " ++ return_type)
        | some (_, found_class_name) => .ok (starts ++ az_pfx ++ found_class_name ++ ends)

/-- Method return type lowering (lines 591-602); default is no return type. -/
def function_returns (apiData : ApiData) (f : ApiFn) : Except String String :=
  match f.returns with
  | none => .ok ""
  | some return_type =>
    match analyze_type return_type with
    | .error e => .error e
    | .ok (starts, base, ends) =>
      if is_primitive_arg base then .ok return_type
      else
        match search_for_class_by_rust_class_name apiData base with
        | none => .error ("rust-dll: (line 549): no return_type_class found for " ++ return_type)
        | some (_, found_class_name) => .ok (starts ++ az_pfx ++ found_class_name ++ ends)

/-- One constructor of the `"constructors"` loop (lines 525-569). -/
def process_constructor (patches : PatchMap) (apiData : ApiData)
    (module_name class_name class_ptr_name rust_class_name : String)
    (c_is_stack_allocated : Bool)
    (st : String × AList (String × String)) (item : String × ApiFn) :
    Except String (String × AList (String × String)) := do
  let (fn_name, const) := item
  let fn_body := constructor_fn_body patches module_name class_name fn_name const
    c_is_stack_allocated rust_class_name class_ptr_name
  let code := st.1 ++
    (match const.doc with
     | some d => "/// " ++ d ++ "\r\n"
     | none =>
       "/// Creates a new `" ++ class_name ++
         "` instance whose memory is owned by the rust allocator\r\n" ++
       "/// Equivalent to the Rust `" ++ class_name ++ "::" ++ fn_name ++
         "()` constructor.\r\n")
  let returns ← constructor_returns apiData class_ptr_name const
  let fn_args ← fn_args_c_api const class_name class_ptr_name false apiData
  let fm := ainsert st.2 (to_snake_case class_ptr_name ++ "_" ++ fn_name) (fn_args, returns)
  let code := code ++ "#[no_mangle] pub extern \"C\" fn " ++ to_snake_case class_ptr_name ++
    "_" ++ fn_name ++ "(" ++ fn_args ++ ") -> " ++ returns ++ " \x7b " ++ fn_body ++ " \x7d\r\n"
  pure (code, fm)

/-- One method of the `"functions"` loop (lines 571-608). -/
def process_function (patches : PatchMap) (apiData : ApiData)
    (module_name class_name class_ptr_name : String)
    (st : String × AList (String × String)) (item : String × ApiFn) :
    Except String (String × AList (String × String)) := do
  let (fn_name, f) := item
  let fn_body := function_fn_body patches module_name class_name fn_name f
  let code := st.1 ++
    (match f.doc with
     | some d => "/// " ++ d ++ "\r\n"
     | none => "/// Equivalent to the Rust `" ++ class_name ++ "::" ++ fn_name ++
         "()` function.\r\n")
  let fn_args ← fn_args_c_api f class_name class_ptr_name true apiData
  let returns ← function_returns apiData f
  let fm := ainsert st.2 (to_snake_case class_ptr_name ++ "_" ++ fn_name) (fn_args, returns)
  let return_arrow := if returns = "" then "" else " -> "
  let code := code ++ "#[no_mangle] pub extern \"C\" fn " ++ to_snake_case class_ptr_name ++
    "_" ++ fn_name ++ "(" ++ fn_args ++ ")" ++ return_arrow ++ returns ++ " \x7b " ++
    fn_body ++ " \x7d\r\n"
  pure (code, fm)

/-- Destructor / clone / boxed-helper emission (lines 610-681). -/
def dtor_section (class_name class_ptr_name rust_class_name lifetime : String)
    (c : ApiClass)
    (c_is_stack_allocated class_can_be_copied class_is_const class_is_typedef
      class_can_be_cloned : Bool)
    (st : String × AList (String × String)) :
    Except String (String × AList (String × String)) :=
  let snake := to_snake_case class_ptr_name
  if c_is_stack_allocated then
    if class_can_be_copied then .ok st
    else if class_is_const || class_is_typedef then .ok st
    else do
      let stack_delete_body ←
        match c.destructor with
        | some d => pure d
        | none =>
          if class_is_small_enum c then do
            let ext ← keyGet c.external "KeyError: external"
            let body := (c.enum_fields.getD []).foldl (fun acc variant =>
              acc ++
                (if variant.2.type?.isSome then
                  ext ++ "::" ++ variant.1 ++ "(_) => \x7b \x7d, "
                else
                  ext ++ "::" ++ variant.1 ++ " => \x7b \x7d, "))
              "match object \x7b "
            pure (body ++ "\x7d\r\n")
          else pure ""
      let code := st.1 ++ "/// Destructor: Takes ownership of the `" ++ class_name ++
        "` pointer and deletes it.\r\n"
      let fm := ainsert st.2 (snake ++ "_delete") ("object: &mut " ++ class_ptr_name, "")
      let code := code ++ "#[no_mangle] #[allow(unused_variables)] pub extern \"C\" fn " ++
        snake ++ "_delete" ++ lifetime ++ "(object: &mut " ++ class_ptr_name ++ ") \x7b " ++
        stack_delete_body ++ "\x7d\r\n"
      if class_can_be_cloned ∧ lifetime = "" then
        let code := code ++ "/// Clones the object\r\n"
        let fm := ainsert fm (snake ++ "_deep_copy") ("object: &" ++ class_ptr_name, class_ptr_name)
        let code := code ++ "#[no_mangle] pub extern \"C\" fn " ++ snake ++ "_deep_copy" ++
          lifetime ++ "(object: &" ++ class_ptr_name ++ ") -> " ++ class_ptr_name ++
          " \x7b " ++ "object.clone()" ++ " \x7d\r\n"
        pure (code, fm)
      else
        pure (code, fm)
  else
    let code := st.1 ++ "/// Destructor: Takes ownership of the `" ++ class_name ++
      "` pointer and deletes it.\r\n"
    let fm := ainsert st.2 (snake ++ "_delete") ("ptr: &mut " ++ class_ptr_name, "")
    let code := code ++ "#[no_mangle] pub extern \"C\" fn " ++ snake ++ "_delete" ++
      lifetime ++ "(ptr: &mut " ++ class_ptr_name ++ ") \x7b " ++
      "let _ = unsafe \x7b Box::<" ++ rust_class_name ++ ">::from_raw(ptr.ptr  as *mut " ++
      rust_class_name ++ ") \x7d;" ++ "\x7d\r\n"
    let code := code ++ "/// (private): Downcasts the `" ++ class_ptr_name ++
      "` to a `Box<" ++ rust_class_name ++ ">`. Note that this takes ownership of the pointer.\r\n"
    let code := code ++ "#[inline(always)] fn " ++ snake ++ "_downcast" ++ lifetime ++
      "(ptr: " ++ class_ptr_name ++ ") -> Box<" ++ rust_class_name ++ "> \x7b " ++
      "    unsafe \x7b Box::<" ++ rust_class_name ++ ">::from_raw(ptr.ptr  as *mut " ++
      rust_class_name ++ ") \x7d" ++ "\x7d\r\n"
    let downcast_refmut_generics :=
      if lifetime = "<'a>" then
        "<'a, P, F: FnOnce(&mut " ++ rust_class_name ++ ") -> P>"
      else
        "<P, F: FnOnce(&mut " ++ rust_class_name ++ ") -> P>"
    let code := code ++ "/// (private): Downcasts the `" ++ class_ptr_name ++
      "` to a `&mut Box<" ++ rust_class_name ++ ">` and runs the `func` closure on it\r\n"
    let code := code ++ "#[inline(always)] fn " ++ snake ++ "_downcast_refmut" ++
      downcast_refmut_generics ++ "(ptr: &mut " ++ class_ptr_name ++ ", func: F) -> P \x7b " ++
      "    func(unsafe \x7b &mut *(ptr.ptr as *mut " ++ rust_class_name ++ ") \x7d)" ++
      "\x7d\r\n"
    let downcast_ref_generics :=
      if lifetime = "<'a>" then
        "<'a, P, F: FnOnce(&" ++ rust_class_name ++ ") -> P>"
      else
        "<P, F: FnOnce(&" ++ rust_class_name ++ ") -> P>"
    let code := code ++ "/// (private): Downcasts the `" ++ class_ptr_name ++
      "` to a `&Box<" ++ rust_class_name ++ ">` and runs the `func` closure on it\r\n"
    let code := code ++ "#[inline(always)] fn " ++ snake ++ "_downcast_ref" ++
      downcast_ref_generics ++ "(ptr: &" ++ class_ptr_name ++ ", func: F) -> P \x7b " ++
      "    func(unsafe \x7b &*(ptr.ptr as *const " ++ rust_class_name ++ ") \x7d)" ++
      "\x7d\r\n"
    pure (code, fm)

/-- Capability-helper emission (lines 683-727). -/
def caps_section (class_ptr_name lifetime : String)
    (c_is_stack_allocated class_can_derive_debug class_has_partialeq class_has_partialord
      class_has_ord class_can_be_hashed : Bool)
    (st : String × AList (String × String)) : String × AList (String × String) :=
  let snake := to_snake_case class_ptr_name
  let st :=
    if class_can_derive_debug then
      let code := st.1 ++ "/// Creates a string with the debug representation of the object\r\n"
      let fm := ainsert st.2 (snake ++ "_fmt_debug") ("object: &" ++ class_ptr_name, "AzString")
      let code := code ++ "#[no_mangle] pub extern \"C\" fn " ++ snake ++ "_fmt_debug" ++
        lifetime ++ "(object: &" ++ class_ptr_name ++ ") -> AzString \x7b " ++
        (if c_is_stack_allocated then
          "format!(\"\x7b:#?\x7d\", object).into()"
        else
          "" ++ snake ++ "_downcast_ref(object, |o| format!(\"\x7b:#?\x7d\", o)).into()") ++
        " \x7d\r\n"
      (code, fm)
    else st
  let st :=
    if class_has_partialeq then
      let code := st.1 ++ "/// Compares two instances of `" ++ class_ptr_name ++
        "` for equality\r\n"
      let fm := ainsert st.2 (snake ++ "_partial_eq")
        ("a: &" ++ class_ptr_name ++ ", b: &" ++ class_ptr_name, "bool")
      let code := code ++ "#[no_mangle] pub extern \"C\" fn " ++ snake ++ "_partial_eq" ++
        lifetime ++ "(a: &" ++ class_ptr_name ++ ", b: &" ++ class_ptr_name ++
        ") -> bool \x7b " ++ "a.eq(b) " ++ "\x7d\r\n"
      (code, fm)
    else st
  let st :=
    if class_has_partialord then
      let code := st.1 ++ "/// Compares two instances of `" ++ class_ptr_name ++
        "` for ordering. Returns 0 for None (equality), 1 on Some(Less), 2 on Some(Equal) and 3 on Some(Greater). \r\n"
      let fm := ainsert st.2 (snake ++ "_partial_cmp")
        ("a: &" ++ class_ptr_name ++ ", b: &" ++ class_ptr_name, "u8")
      let code := code ++ "#[no_mangle] pub extern \"C\" fn " ++ snake ++ "_partial_cmp" ++
        lifetime ++ "(a: &" ++ class_ptr_name ++ ", b: &" ++ class_ptr_name ++
        ") -> u8 \x7b " ++ "use std::cmp::Ordering::*;" ++
        "match a.partial_cmp(b) \x7b None => 0, Some(Less) => 1, Some(Equal) => 2, Some(Greater) => 3 \x7d " ++
        "\x7d\r\n"
      (code, fm)
    else st
  let st :=
    if class_has_ord then
      let code := st.1 ++ "/// Compares two instances of `" ++ class_ptr_name ++
        "` for full ordering. Returns 0 for Less, 1 for Equal, 2 for Greater. \r\n"
      let fm := ainsert st.2 (snake ++ "_cmp")
        ("a: &" ++ class_ptr_name ++ ", b: &" ++ class_ptr_name, "u8")
      let code := code ++ "#[no_mangle] pub extern \"C\" fn " ++ snake ++ "_cmp" ++
        lifetime ++ "(a: &" ++ class_ptr_name ++ ", b: &" ++ class_ptr_name ++
        ") -> u8 \x7b " ++ "use std::cmp::Ordering::*; " ++
        "match a.cmp(b) \x7b Less => 0, Equal => 1, Greater => 2 \x7d " ++ "\x7d\r\n"
      (code, fm)
    else st
  if class_can_be_hashed then
    let code := st.1 ++ "/// Returns the hash of a `" ++ class_ptr_name ++ "` instance \r\n"
    let fm := ainsert st.2 (snake ++ "_hash") ("object: &" ++ class_ptr_name, "u64")
    let code := code ++ "#[no_mangle] pub extern \"C\" fn " ++ snake ++ "_hash" ++
      lifetime ++ "(object: &" ++ class_ptr_name ++ ") -> u64 \x7b " ++
      "use std::collections::hash_map::DefaultHasher; use std::hash::\x7bHash, Hasher\x7d; " ++
      "let mut hasher = DefaultHasher::new(); object.hash(&mut hasher); hasher.finish() " ++
      "\x7d\r\n"
    (code, fm)
  else st

/-- Type-declaration emission and `structs_map` registration (lines 490-523). -/
def decl_section (class_name class_ptr_name struct_doc : String)
    (c : ApiClass)
    (class_is_boxed_object treat_external_as_ptr : Bool)
    (struct_derive : List String)
    (st : String × SMap) : String × SMap :=
  let code := st.1
  let sm := st.2
  match c.external with
  | some external_path =>
    match c.const with
    | some const_type =>
      (code ++ "pub static " ++ class_ptr_name ++ ": " ++ az_pfx ++ const_type ++ " = " ++
        external_path ++ ";\r\n", sm)
    | none =>
      if class_is_boxed_object then
        let sm := ainsert sm class_ptr_name
          { external := some external_path, derive := some struct_derive,
            doc := some struct_doc,
            struct := some [("ptr", { type? := some "*mut c_void" })] }
        if treat_external_as_ptr then
          (code ++ "pub type " ++ class_ptr_name ++ "TT = " ++ external_path ++ ";\r\n" ++
            "pub use " ++ class_ptr_name ++ "TT as " ++ class_ptr_name ++ ";\r\n", sm)
        else
          (code ++ "#[repr(C)] pub struct " ++ class_ptr_name ++
            " \x7b pub ptr: *mut c_void \x7d\r\n", sm)
      else
        let sm :=
          match c.struct_fields with
          | some fields =>
            ainsert sm class_ptr_name
              { external := some external_path, derive := some struct_derive,
                doc := some struct_doc, struct := some fields }
          | none =>
            match c.enum_fields with
            | some variants =>
              ainsert sm class_ptr_name
                { external := some external_path, derive := some struct_derive,
                  doc := some struct_doc, enum := some variants }
            | none => sm
        (code ++ "pub type " ++ class_ptr_name ++ "TT = " ++ external_path ++ ";\r\n" ++
          "pub use " ++ class_ptr_name ++ "TT as " ++ class_ptr_name ++ ";\r\n", sm)
  | none =>
    let sm := ainsert sm class_ptr_name
      { derive := some struct_derive, doc := some struct_doc,
        struct := some [("ptr", { type? := some "*mut c_void" })] }
    (code ++ "#[repr(C)] pub struct " ++ class_ptr_name ++
      " \x7b ptr: *mut c_void \x7d\r\n", sm)

/-- One class of the per-module loop of `generate_rust_dll` (lines 448-727). -/
def process_class (patches : PatchMap) (apiData : ApiData) (module_name : String)
    (st : GenState) (item : String × ApiClass) : Except String GenState := do
  let (class_name, c) := item
  let code := st.code ++ "\r\n"
  let rust_class_name := c.rust_class_name.getD class_name
  let class_is_boxed_object := !(class_is_stack_allocated c)
  let class_is_const := c.const.isSome
  let class_can_be_cloned := c.clone.getD true
  let struct_derive := c.derive.getD []
  let class_can_derive_debug := (c.derive.getD []).contains "Debug"
  let class_can_be_copied := (c.derive.getD []).contains "Copy"
  let class_has_partialeq := (c.derive.getD []).contains "PartialEq"
  let class_has_partialord := (c.derive.getD []).contains "PartialOrd"
  let class_has_ord := (c.derive.getD []).contains "Ord"
  let class_can_be_hashed := (c.derive.getD []).contains "Hash"
  let class_is_typedef := c.typedef.getD false
  let treat_external_as_ptr := c.external.isSome && c.is_boxed_object.getD false
  let c_is_stack_allocated := !class_is_boxed_object
  let class_ptr_name := az_pfx ++ class_name
  if (patch_get patches [module_name, class_name]).isSome ∧ classPatchMarked c "dll" then
    let code := code ++ (patch_get patches [module_name, class_name]).getD ""
    let sm :=
      if class_is_typedef then ainsert st.structs_map class_ptr_name { typedef := some true }
      else st.structs_map
    pure { code := code, structs_map := sm, functions_map := st.functions_map }
  else
    let struct_doc :=
      match c.doc with
      | some d => d
      | none =>
        if c_is_stack_allocated then
          "Re-export of rust-allocated (stack based) `" ++ class_name ++ "` struct"
        else
          "Pointer to rust-allocated `Box<" ++ class_name ++ ">` struct"
    let code := code ++ "/// " ++ struct_doc ++ "\r\n"
    let (code, sm) := decl_section class_name class_ptr_name struct_doc c
      class_is_boxed_object treat_external_as_ptr struct_derive (code, st.structs_map)
    let (code, fm) ←
      match c.constructors with
      | some cs =>
        exceptFold (process_constructor patches apiData module_name class_name
          class_ptr_name rust_class_name c_is_stack_allocated) (code, st.functions_map) cs
      | none => pure (code, st.functions_map)
    let (code, fm) ←
      match c.functions with
      | some fs =>
        exceptFold (process_function patches apiData module_name class_name class_ptr_name)
          (code, fm) fs
      | none => pure (code, fm)
    let lifetime := if strContains rust_class_name "<'a>" then "<'a>" else ""
    let (code, fm) ← dtor_section class_name class_ptr_name rust_class_name lifetime c
      c_is_stack_allocated class_can_be_copied class_is_const class_is_typedef
      class_can_be_cloned (code, fm)
    let (code, fm) := caps_section class_ptr_name lifetime c_is_stack_allocated
      class_can_derive_debug class_has_partialeq class_has_partialord class_has_ord
      class_can_be_hashed (code, fm)
    pure { code := code, structs_map := sm, functions_map := fm }

/-- One module of the module loop (lines 441-446): a registered module-scope
patch (guarded by a class literally named `"use_patches"` carrying a `"dll"`
key) replaces the whole module's output. -/
def process_module (patches : PatchMap) (apiData : ApiData)
    (st : GenState) (item : String × ApiModule) : Except String GenState :=
  let (module_name, m) := item
  let module_guard := (patch_get patches [module_name]).isSome &&
    (match alookup m.classes "use_patches" with
     | some cUP => apiClassHasKey cUP "dll"
     | none => false)
  if module_guard then
    .ok { st with code := st.code ++ (patch_get patches [module_name]).getD "" }
  else
    exceptFold (process_class patches apiData module_name) st m.classes

/-- The module loop of `generate_rust_dll` over the selected schema version. -/
def generate_rust_dll_body (patches : PatchMap) (apiData : ApiData) (st : GenState) :
    Except String GenState :=
  exceptFold (process_module patches apiData) st apiData

/-- Source `generate_rust_dll` (lines 423-729): select the last declared
version, emit the prelude and the global `(*)` patch, then run the module
loop; returns `[code, structs_map, functions_map]`. -/
def generate_rust_dll (patches : PatchMap) (apiDataAll : List (String × ApiData)) :
    Except String (String × SMap × AList (String × String)) := do
  let version ← keyGet (apiDataAll.map Prod.fst).getLast? "IndexError: list index out of range"
  let code := "#![crate_type = \"cdylib\"]\r\n" ++ "#![deny(improper_ctypes_definitions)]" ++
    "\r\n" ++ "// WARNING: autogenerated code for azul api version " ++ version ++
    "\r\n" ++ "\r\n\r\n"
  let apiData ← keyGet (alookup apiDataAll version) "KeyError: version"
  let code := code ++ (match patch_get patches ["*"] with | some p => p | none => "")
  let stF ← generate_rust_dll_body patches apiData
    { code := code, structs_map := [], functions_map := [] }
  pure (stF.code, stF.structs_map, stF.functions_map)

/-! ## Struct layout emission and the layout-verification artifact
(`generate_structs`, lines 841-936, and `generate_size_test`, lines 1223-1252) -/

/-- The typedef scan of `generate_structs` (lines 858-873), which clears the
`#[derive(Debug)]` attribute when a field's resolved class is a typedef; an
unresolvable field type crashes (`print` followed by `TypeError`). -/
def gsDeriveDebugScan (apiData : ApiData) (fields : List (String × FieldVal))
    (opt_derive_debug0 : String) : Except String String :=
  fields.foldlM (fun opt_derive_debug field =>
    match field.2.type? with
    | some t => do
      let a ← analyze_type t
      if !(is_primitive_arg a.2.1) then
        match search_for_class_by_rust_class_name apiData a.2.1 with
        | none => .error "TypeError: no field_type_class_path found"
        | some (mn, cn) => do
          let found_c ← keyGet (get_class apiData mn cn) "KeyError: class"
          if found_c.typedef.getD false then pure "" else pure opt_derive_debug
      else pure opt_derive_debug
    | none => pure opt_derive_debug) opt_derive_debug0

/-- One struct field line of `generate_structs` (lines 877-905). -/
def gsStructField (apiData : ApiData) (code : String) (field : String × FieldVal) :
    Except String String := do
  let field_name := field.1
  match field.2.type? with
  | some field_type => do
    let a ← analyze_type field_type
    let vis := if field_name = "ptr" then "        pub(crate) " else "        pub "
    if is_primitive_arg a.2.1 then
      pure (code ++ vis ++ field_name ++ ": " ++ field_type ++ ",\r\n")
    else
      match search_for_class_by_rust_class_name apiData a.2.1 with
      | none => .error "TypeError: no field_type_class_path found"
      | some (mn, cn) => do
        let _ ← keyGet (get_class apiData mn cn) "KeyError: class"
        pure (code ++ vis ++ field_name ++ ": " ++ a.1 ++ az_pfx ++ cn ++ a.2.2 ++ ",\r\n")
  | none => .error "error"

/-- One enum variant line of `generate_structs` (lines 917-933). -/
def gsEnumVariant (apiData : ApiData) (code : String) (variant : String × FieldVal) :
    Except String String := do
  let variant_name := variant.1
  match variant.2.type? with
  | some variant_type =>
    if is_primitive_arg variant_type then
      pure (code ++ "        " ++ variant_name ++ "(" ++ variant_type ++ "),\r\n")
    else do
      let a ← analyze_type variant_type
      match search_for_class_by_rust_class_name apiData a.2.1 with
      | none => .error "TypeError: variant_type not found"
      | some (mn, cn) => do
        let _ ← keyGet (get_class apiData mn cn) "KeyError: class"
        pure (code ++ "        " ++ variant_name ++ "(" ++ a.1 ++ az_pfx ++ cn ++ a.2.2 ++
          "),\r\n")
  | none => pure (code ++ "        " ++ variant_name ++ ",\r\n")

/-- One `structs_map` entry of `generate_structs` (lines 847-934). -/
def gsEntry (apiData : ApiData) (code : String) (entry : String × SMEntry) :
    Except String String := do
  let (struct_name, struct0) := entry
  let code := code ++
    (match struct0.doc with
     | some d => "    /// " ++ d ++ "\r\n"
     | none => "    /// `" ++ struct_name ++ "` struct\r\n")
  match struct0.struct with
  | some fields => do
    let opt_derive_debug0 := if struct_name = "AzAtomicRefCount" then "" else "#[derive(Debug)]"
    let opt_derive_debug ← gsDeriveDebugScan apiData fields opt_derive_debug0
    let code := code ++ "    #[repr(C)] " ++ opt_derive_debug ++ " pub struct " ++
      struct_name ++ " \x7b\r\n"
    let code ← fields.foldlM (gsStructField apiData) code
    pure (code ++ "    \x7d\r\n")
  | none =>
    match struct0.enum with
    | some variants => do
      let repr0 :=
        if variants.any (fun v => v.2.type?.isSome) then "#[repr(C, u8)]" else "#[repr(C)]"
      let code := code ++ "    " ++ repr0 ++ " #[derive(Debug)] pub enum " ++ struct_name ++
        " \x7b\r\n"
      let code ← variants.foldlM (gsEnumVariant apiData) code
      pure (code ++ "    \x7d\r\n")
    | none => pure code

/-- Source `generate_structs` (lines 841-936). -/
def generate_structs (apiDataAll : List (String × ApiData)) (structs_map : SMap)
    (version : String) : Except String String := do
  let apiData ← keyGet (alookup apiDataAll version) "KeyError: version"
  structs_map.foldlM (gsEntry apiData) ""

/-- The layout assertions emitted by the loop of lines 1244-1248: one
`(external_path, struct_name)` pair per `structs_map` entry that has an
`external` key, in map order. -/
def sizeTestAssertPairs (structs_map : SMap) : List (String × String) :=
  structs_map.filterMap (fun e => e.2.external.map (fun ext => (ext, e.1)))

/-- The text of one layout assertion (line 1248). -/
def assert_line (p : String × String) : String :=
  "        assert_eq!(Layout::new::<" ++ p.1 ++ ">(), Layout::new::<" ++ p.2 ++ ">());\r\n"

/-- Source `generate_size_test` (lines 1223-1252). -/
def generate_size_test (test_sizes_patches : PatchMap)
    (apiDataAll : List (String × ApiData)) (structs_map : SMap) : Except String String := do
  let version ← keyGet (apiDataAll.map Prod.fst).getLast? "IndexError: list index out of range"
  let generated_structs ← generate_structs apiDataAll structs_map version
  pure ("#[cfg(test)]\r\n" ++ "mod test_sizes \x7b\r\n" ++
    (match patch_get test_sizes_patches ["dll"] with | some p => p | none => "") ++
    generated_structs ++
    "    use core::ffi::c_void;\r\n" ++ "    use azul_impl::css::*;\r\n" ++ "\r\n" ++
    "    #[test]\r\n" ++ "    fn test_size() \x7b\r\n" ++
    "         use core::alloc::Layout;\r\n" ++
    strJoin ((sizeTestAssertPairs structs_map).map assert_line) ++
    "    \x7d\r\n" ++ "\x7d\r\n")

/-! ## Specification-side predicates

These definitions phrase the claims' vocabulary over the embedded data; they
are compared against the source-translated functions by the theorems below. -/

/-- Truthiness of the `typedef` key of a structs-map entry. -/
def typedefTruthy (e : SMEntry) : Bool := e.typedef.getD false

/-- Truthiness of the `is_boxed_object` key of a structs-map entry. -/
def boxedTruthy (e : SMEntry) : Bool := e.is_boxed_object.getD false

/-- All field / variant-payload type strings an entry declares (the claim's
notion of structural value embedding: "a struct field or enum variant payload"). -/
def entryFieldTypes (e : SMEntry) : List String :=
  (e.struct.getD []).filterMap (fun f => f.2.type?) ++
  (e.enum.getD []).filterMap (fun v => v.2.type?)

/-- Entity `e` structurally embeds a value whose base type name is `b`
(some declared field or variant payload type has base `b`). -/
def embeds_base (e : SMEntry) (b : String) : Bool :=
  (entryFieldTypes e).any (fun t =>
    match analyze_type t with
    | .ok a => a.2.1 = b
    | .error _ => false)

/-- The field / payload type strings the sequencer actually inspects for an
entry: the `struct` list when present, otherwise the `enum` list (matching
the `elif` priority of lines 756-772 and 796-818). -/
def blockedFieldTypes (e : SMEntry) : List String :=
  match e.struct with
  | some fields => fields.filterMap (fun f => f.2.type?)
  | none => (e.enum.getD []).filterMap (fun v => v.2.type?)

/-- Entry is blocked by the key set `S`: some inspected field has a
non-primitive, non-forward-declared base type whose prefixed name lies in `S`. -/
def blocked_in (S : List String) (e : SMEntry) : Bool :=
  (blockedFieldTypes e).any (fun t =>
    match analyze_type t with
    | .ok a =>
      !(is_primitive_arg a.2.1) && !(alContains forward_delcarations a.2.1) &&
        S.contains (az_pfx ++ a.2.1)
    | .error _ => false)

/-- Success of an `Except` computation. -/
def isOkE {α : Type} : Except String α → Bool
  | .ok _ => true
  | .error _ => false

/-- A structs-map entry the sequencer can process without raising: a truthy
typedef or boxed-object flag, or a struct list whose fields all carry
analyzable types, or (with no struct key) an enum list whose typed payloads
are analyzable. -/
def wellFormedEntry (e : SMEntry) : Bool :=
  typedefTruthy e || boxedTruthy e ||
  (match e.struct with
   | some fields =>
     fields.all (fun f =>
       match f.2.type? with
       | some t => isOkE (analyze_type t)
       | none => false)
   | none =>
     match e.enum with
     | some variants =>
       variants.all (fun v =>
         match v.2.type? with
         | some t => isOkE (analyze_type t)
         | none => true)
     | none => false)

/-- A genuine unbroken value-embedding cycle: a nonempty key set `S`, every
member resolving in the map to a non-typedef, non-boxed entry that is blocked
by `S` itself — no pass can ever admit any member of `S`. -/
def blocked_set (m : SMap) (S : List String) : Bool :=
  !S.isEmpty &&
  S.all (fun k =>
    match alookup m k with
    | some e => !(typedefTruthy e) && !(boxedTruthy e) && blocked_in S e
    | none => false)

/-- Every entry of a structs map is well formed. -/
def wellFormedMap (m : SMap) : Bool := m.all (fun p => wellFormedEntry p.2)

/-- The flattened module/class scan order of the registry (modules in schema
declaration order, classes in declaration order within each module). -/
def allClasses (apiData : ApiData) : List (String × String × ApiClass) :=
  apiData.flatMap (fun p => p.2.classes.map (fun q => (p.1, q.1, q.2)))

/-- A registry scan match: the searched name equals the declared class name or
its `rust_class_name` alias. -/
def matchesName (searched : String) (x : String × String × ApiClass) : Bool :=
  (x.2.2.rust_class_name.getD x.2.1 = searched) || (x.2.1 = searched)

/-- Entity `e` embeds base `b` through the fields the sequencer inspects. -/
def checked_embeds (e : SMEntry) (b : String) : Bool :=
  (blockedFieldTypes e).any (fun t =>
    match analyze_type t with
    | .ok a => a.2.1 = b
    | .error _ => false)

/-- Every non-typedef, non-boxed entry of the list is preceded by the entries
it structurally embeds (unless primitive or forward-declared). -/
def GoodOrder (s : SMap) : Prop :=
  ∀ i, ∀ hi : i < s.length,
    typedefTruthy (s.get ⟨i, hi⟩).2 = false →
    boxedTruthy (s.get ⟨i, hi⟩).2 = false →
    ∀ b, checked_embeds (s.get ⟨i, hi⟩).2 b = true →
      is_primitive_arg b = false → alContains forward_delcarations b = false →
      ∃ j, ∃ hj : j < s.length, j < i ∧ (s.get ⟨j, hj⟩).1 = az_pfx ++ b

/-- What holds of every entry parked in `classes_not_found`. -/
def nfEntry (p : String × SMEntry) : Prop :=
  wellFormedEntry p.2 = true ∧ typedefTruthy p.2 = false ∧ boxedTruthy p.2 = false

/-- A member of the blocked set, as a key/entry pair. -/
def blockedPair (S : List String) (p : String × SMEntry) : Prop :=
  typedefTruthy p.2 = false ∧ boxedTruthy p.2 = false ∧ blocked_in S p.2 = true ∧
  wellFormedEntry p.2 = true

/-! ## Concrete schema fragments

Small inputs on which the theorems below are exercised; each is built from
the schema vocabulary of the data model above. -/

/-- An entry whose single struct field has the primitive type `u8`. -/
def entPrimField : SMEntry := { struct := some [("x", { type? := some "u8" })] }

/-- A one-entry map whose entry references only primitives. -/
def mapPrimField : SMap := [("AzFoo", entPrimField)]

/-- A one-entry map holding a typedef-flagged entry. -/
def mapTypedefOnly : SMap := [("AzT", { typedef := some true })]

/-- A typedef-flagged entry that also declares a struct field of type `Dom`. -/
def entTypedefCex : SMEntry :=
  { typedef := some true, struct := some [("f", { type? := some "Dom" })] }

/-- A map whose first entry embeds the second by value but is typedef-flagged. -/
def mapTypedefCex : SMap := [("AzA", entTypedefCex), ("AzDom", { struct := some [] })]

/-- A two-entry map where the embedded entity precedes the embedding one. -/
def mapDomPair : SMap :=
  [("AzDom", { struct := some [] }),
   ("AzA", { struct := some [("f", { type? := some "Dom" })] })]

/-- A two-entry map with a genuine value-embedding cycle `A ↔ B`. -/
def mapCycle : SMap :=
  [("AzA", { struct := some [("x", { type? := some "B" })] }),
   ("AzB", { struct := some [("y", { type? := some "A" })] })]

/-- A trivial one-entry map. -/
def mapSmall : SMap := [("AzX", { struct := some [] })]

/-- A patch table carrying both a class-scope and a member-scope override. -/
def dllPatchesBoth : PatchMap :=
  [(["m", "C"], "CLASSPATCH"), (["m", "C", "new"], "MEMBERPATCH")]

/-- A class marked patched whose constructor is itself marked patched. -/
def classBothPatched : ApiClass :=
  { external := some "e::C", struct_fields := some [],
    use_patches := some ["dll"],
    constructors := some [("new", { fn_body := "C::new()", use_patches := some ["dll"] })] }

/-- A function object whose only argument is of a primitive type. -/
def fnPrimArgs : ApiFn := { fn_args := some [("x", "u8")] }

/-- A function object whose argument type resolves to no registered entity. -/
def fnBadArg : ApiFn := { fn_args := some [("a", "Nope")] }

/-- A registry with one module holding one class. -/
def apiOneClass : ApiData := [("m", { classes := [("C", { external := some "e" })] })]

/-- A clonable stack-allocated class whose Rust alias carries a lifetime. -/
def classLifetime : ApiClass :=
  { external := some "x::C", struct_fields := some [("a", { type? := some "u8" })],
    rust_class_name := some "C<'a>" }

/-- A boxed-opaque class declaring an external path. -/
def classBoxedExt : ApiClass := { external := some "azul_impl::Foo" }

/-- The structs-map entry the generator registers for `classBoxedExt`. -/
def entBoxedExt : SMEntry :=
  { external := some "azul_impl::Foo",
    struct := some [("ptr", { type? := some "*mut c_void" })] }

/-- A one-entry structs map with an external boxed entry. -/
def smBoxedExt : SMap := [("AzFoo", entBoxedExt)]

/-- A one-version schema list. -/
def apiVerList : List (String × ApiData) := [("1.0", [])]

/-- The size-test artifact generated for `smBoxedExt`. -/
def sizeTestOut : String :=
  match generate_size_test [] apiVerList smBoxedExt with
  | .ok s => s
  | .error _ => ""

/-! ## Association-list lemmas -/

theorem alookup_eq_some_mem {α : Type} {m : AList α} {k : String} {v : α}
    (h : alookup m k = some v) : (k, v) ∈ m := by
  induction m with
  | nil => simp [alookup] at h
  | cons p r ih =>
    obtain ⟨k', v'⟩ := p
    by_cases hk : k' = k
    · subst hk
      simp [alookup] at h
      subst h
      exact List.mem_cons_self _ _
    · simp [alookup, hk] at h
      exact List.mem_cons_of_mem _ (ih h)

theorem alookup_isSome_iff_mem_keys {α : Type} {m : AList α} {k : String} :
    (alookup m k).isSome = true ↔ k ∈ alKeys m := by
  induction m with
  | nil => simp [alookup, alKeys]
  | cons p r ih =>
    obtain ⟨k', v'⟩ := p
    by_cases hk : k' = k
    · subst hk
      simp [alookup, alKeys]
    · simp [alookup, alKeys, hk, ih, Ne.symm hk]

theorem alContains_iff {α : Type} {m : AList α} {k : String} :
    alContains m k = true ↔ k ∈ alKeys m := by
  unfold alContains
  exact alookup_isSome_iff_mem_keys

theorem alookup_of_mem_nodup {α : Type} {m : AList α} {k : String} {v : α}
    (hmem : (k, v) ∈ m) (hnd : (alKeys m).Nodup) : alookup m k = some v := by
  induction m with
  | nil => simp at hmem
  | cons p r ih =>
    obtain ⟨k', v'⟩ := p
    simp only [alKeys, List.map_cons, List.nodup_cons] at hnd
    rcases List.mem_cons.mp hmem with h | h
    · obtain ⟨h1, h2⟩ := Prod.mk.injEq .. ▸ h
      subst h1; subst h2
      simp [alookup]
    · by_cases hk : k' = k
      · subst hk
        exact absurd (List.mem_map_of_mem Prod.fst h) hnd.1
      · simp only [alookup, hk, if_false]
        exact ih h hnd.2

theorem ainsert_of_not_mem {α : Type} {m : AList α} {k : String} (v : α)
    (h : k ∉ alKeys m) : ainsert m k v = m ++ [(k, v)] := by
  induction m with
  | nil => rfl
  | cons p r ih =>
    obtain ⟨k', v'⟩ := p
    simp only [alKeys, List.map_cons, List.mem_cons, not_or] at h
    simp only [ainsert]
    rw [if_neg (fun hh => h.1 hh.symm)]
    simp only [List.cons_append, List.cons.injEq, true_and]
    exact ih h.2

theorem mem_keys_ainsert_self {α : Type} (m : AList α) (k : String) (v : α) :
    k ∈ alKeys (ainsert m k v) := by
  induction m with
  | nil => simp [ainsert, alKeys]
  | cons p r ih =>
    obtain ⟨k', v'⟩ := p
    by_cases hk : k' = k
    · subst hk
      simp only [ainsert, if_true]
      simp [alKeys]
    · simp only [ainsert]
      rw [if_neg hk]
      simp only [alKeys, List.map_cons, List.mem_cons]
      exact Or.inr ih

theorem mem_keys_ainsert_of_mem {α : Type} {m : AList α} {k' : String}
    (k : String) (v : α) (h : k' ∈ alKeys m) : k' ∈ alKeys (ainsert m k v) := by
  induction m with
  | nil => simp [alKeys] at h
  | cons p r ih =>
    obtain ⟨k0, v0⟩ := p
    simp only [alKeys, List.map_cons, List.mem_cons] at h
    by_cases hk : k0 = k
    · subst hk
      simp only [ainsert, if_true]
      simp only [alKeys, List.map_cons, List.mem_cons]
      exact h
    · simp only [ainsert]
      rw [if_neg hk]
      simp only [alKeys, List.map_cons, List.mem_cons]
      rcases h with h | h
      · exact Or.inl h
      · exact Or.inr (ih h)

theorem alookup_ainsert_ne {α : Type} {m : AList α} {k k' : String} (v : α)
    (h : k' ≠ k) : alookup (ainsert m k v) k' = alookup m k' := by
  induction m with
  | nil => simp [ainsert, alookup, Ne.symm h]
  | cons p r ih =>
    obtain ⟨k0, v0⟩ := p
    by_cases hk : k0 = k
    · subst hk
      simp only [ainsert, if_pos rfl]
      simp only [alookup]
      by_cases h0 : k0 = k'
      · exact absurd h0.symm h
      · simp [h0]
    · simp only [ainsert, hk, if_false, alookup]
      by_cases h0 : k0 = k'
      · simp [h0]
      · simp only [h0, if_false]
        exact ih

/-! ## `exceptFold` lemmas -/

theorem exceptFold_pres {σ α : Type} {f : σ → α → Except String σ} (P : σ → Prop)
    (hf : ∀ s x s', f s x = .ok s' → P s → P s') :
    ∀ {l : List α} {s t : σ}, exceptFold f s l = .ok t → P s → P t := by
  intro l
  induction l with
  | nil => intro s t h hp; simp only [exceptFold] at h; cases h; exact hp
  | cons x r ih =>
    intro s t h hp
    simp only [exceptFold] at h
    cases hstep : f s x with
    | error e => rw [hstep] at h; cases h
    | ok s' =>
      rw [hstep] at h
      exact ih h (hf s x s' hstep hp)

theorem exceptFold_split {σ α : Type} {f : σ → α → Except String σ} {x : α} :
    ∀ {l : List α} {s t : σ}, x ∈ l → exceptFold f s l = .ok t →
      ∃ s1 s2, f s1 x = .ok s2 := by
  intro l
  induction l with
  | nil => intro s t h; simp at h
  | cons y r ih =>
    intro s t hmem h
    simp only [exceptFold] at h
    cases hstep : f s y with
    | error e => rw [hstep] at h; cases h
    | ok s' =>
      rw [hstep] at h
      rcases List.mem_cons.mp hmem with heq | hmem'
      · subst heq; exact ⟨s, s', hstep⟩
      · exact ih hmem' h

theorem exceptFold_total {σ α : Type} {f : σ → α → Except String σ}
    (hf : ∀ s x, ∃ s', f s x = .ok s') :
    ∀ (l : List α) (s : σ), ∃ t, exceptFold f s l = .ok t := by
  intro l
  induction l with
  | nil => intro s; exact ⟨s, rfl⟩
  | cons x r ih =>
    intro s
    obtain ⟨s', hs'⟩ := hf s x
    obtain ⟨t, ht⟩ := ih s'
    exact ⟨t, by simp only [exceptFold, hs', ht]⟩

/-! ## Prefixed names are never primitive -/

theorem replaceL_cons_ne (pat rep : List Char) (c : Char) (l : List Char)
    (h : pat.head? ≠ some c) :
    replaceL pat rep (c :: l) = c :: replaceL pat rep l := by
  show replaceLF pat rep (l.length + 1) (c :: l) = c :: replaceLF pat rep l.length l
  rw [replaceLF]
  rw [if_neg]
  rintro ⟨hne, hpre⟩
  match pat, hne with
  | p :: pr, _ =>
    simp only [List.isPrefixOf, Bool.and_eq_true, beq_iff_eq] at hpre
    exact h (by rw [hpre.1]; rfl)

theorem dropWhile_append_singleton {α : Type} (p : α → Bool) (c : α)
    (hc : p c = false) (xs : List α) :
    List.dropWhile p (xs ++ [c]) = List.dropWhile p xs ++ [c] := by
  induction xs with
  | nil => simp [List.dropWhile, hc]
  | cons a t ih =>
    by_cases ha : p a = true
    · simp [List.dropWhile, ha, ih]
    · simp [List.dropWhile, ha]

theorem stripRightL_cons (c : Char) (l : List Char) (hc : isWS c = false) :
    stripRightL (c :: l) = c :: stripRightL l := by
  unfold stripRightL
  rw [List.reverse_cons, dropWhile_append_singleton isWS c hc, List.reverse_append]
  rfl

theorem strStrip_data_cons (c : Char) (l : List Char) (hc : isWS c = false) :
    (strStrip ⟨c :: l⟩).data = c :: stripRightL l := by
  unfold strStrip stripLeftL
  simp only [List.dropWhile, hc]
  exact congrArg String.data (congrArg String.mk (stripRightL_cons c l hc))

theorem stripLeftL_cons (c : Char) (l : List Char) (hc : isWS c = false) :
    stripLeftL (c :: l) = c :: l := by
  unfold stripLeftL
  simp [List.dropWhile, hc]

theorem replaceL_az2 (pat rep : List Char)
    (h : pat.head? ≠ some 'A' ∧ pat.head? ≠ some 'z') (l : List Char) :
    replaceL pat rep ('A' :: 'z' :: l) = 'A' :: 'z' :: replaceL pat rep l := by
  rw [replaceL_cons_ne _ _ _ _ h.1, replaceL_cons_ne _ _ _ _ h.2]

theorem strReplace_data (s pat rep : String) :
    (strReplace s pat rep).data = replaceL pat.data rep.data s.data := rfl

theorem strStrip_data (s : String) :
    (strStrip s).data = stripRightL (stripLeftL s.data) := rfl

theorem az_append_data (b : String) : (az_pfx ++ b).data = 'A' :: 'z' :: b.data := rfl

theorem get_stripped_az (b : String) :
    ∃ t, (get_stripped_arg (az_pfx ++ b)).data = 'A' :: t := by
  unfold get_stripped_arg
  rw [strStrip_data, strReplace_data, strReplace_data, strReplace_data, strReplace_data,
    strReplace_data, az_append_data]
  rw [replaceL_az2 "&".data "".data (by decide)]
  rw [replaceL_az2 "&mut".data "".data (by decide)]
  rw [replaceL_az2 "*const".data "".data (by decide)]
  rw [replaceL_az2 "*const".data "".data (by decide)]
  rw [replaceL_az2 "*mut".data "".data (by decide)]
  rw [stripLeftL_cons _ _ (by decide)]
  rw [stripRightL_cons _ _ (by decide)]
  exact ⟨_, rfl⟩

theorem not_prim_az (b : String) : is_primitive_arg (az_pfx ++ b) = false := by
  obtain ⟨t, ht⟩ := get_stripped_az b
  unfold is_primitive_arg
  by_contra hcon
  rw [Bool.not_eq_false] at hcon
  have hmem : get_stripped_arg (az_pfx ++ b) ∈ basic_types := by
    have := List.mem_of_elem_eq_true (by exact hcon)
    exact this
  have hall : basic_types.all (fun s => decide (s.data.head? ≠ some 'A')) = true := by decide
  have hne := of_decide_eq_true (List.all_eq_true.mp hall _ hmem)
  apply hne
  rw [ht]
  rfl

/-! ## Admission-check lemmas -/

theorem exceptFold_split_full {σ α : Type} {f : σ → α → Except String σ} {x : α} :
    ∀ {l : List α} {s t : σ}, x ∈ l → exceptFold f s l = .ok t →
      ∃ l1 l2 s1 s2, l = l1 ++ x :: l2 ∧ exceptFold f s l1 = .ok s1 ∧
        f s1 x = .ok s2 ∧ exceptFold f s2 l2 = .ok t := by
  intro l
  induction l with
  | nil => intro s t h; simp at h
  | cons y r ih =>
    intro s t hmem h
    simp only [exceptFold] at h
    cases hstep : f s y with
    | error e => rw [hstep] at h; cases h
    | ok s' =>
      rw [hstep] at h
      by_cases hxy : x = y
      · subst hxy
        exact ⟨[], r, s, s', rfl, rfl, hstep, h⟩
      · have hmem' : x ∈ r := by
          rcases List.mem_cons.mp hmem with h0 | h0
          · exact absurd h0 hxy
          · exact h0
        obtain ⟨l1, l2, s1, s2, heq, h1, h2, h3⟩ := ih hmem' h
        refine ⟨y :: l1, l2, s1, s2, by rw [heq]; rfl, ?_, h2, h3⟩
        simp only [exceptFold, hstep]
        exact h1

theorem pass0FieldStep_false {x : String × FieldVal} {r : Bool}
    (h : pass0FieldStep false x = .ok r) : r = false := by
  unfold pass0FieldStep at h
  cases ht : x.2.type? with
  | none => simp only [ht] at h; cases h
  | some t =>
    simp only [ht] at h
    cases ha : analyze_type t with
    | error e => simp only [ha] at h; cases h
    | ok a => simp only [ha, Except.ok.injEq] at h; simp [← h]

theorem pass0VariantStep_false {x : String × FieldVal} {r : Bool}
    (h : pass0VariantStep false x = .ok r) : r = false := by
  unfold pass0VariantStep at h
  cases ht : x.2.type? with
  | none => simp only [ht, Except.ok.injEq] at h; exact h.symm
  | some t =>
    simp only [ht] at h
    cases ha : analyze_type t with
    | error e => simp only [ha] at h; cases h
    | ok a => simp only [ha, Except.ok.injEq] at h; simp [← h]

theorem passNFieldStep_false {s : SMap} {x : String × FieldVal} {r : Bool}
    (h : passNFieldStep s false x = .ok r) : r = false := by
  unfold passNFieldStep at h
  cases ht : x.2.type? with
  | none => simp only [ht] at h; cases h
  | some t =>
    simp only [ht] at h
    cases ha : analyze_type t with
    | error e => simp only [ha] at h; cases h
    | ok a =>
      simp only [ha] at h
      by_cases hc : (!(is_primitive_arg a.2.1) && !(alContains forward_delcarations a.2.1)) = true
      · rw [if_pos hc] at h; simp only [Except.ok.injEq] at h; simp [← h]
      · rw [if_neg hc] at h; simp only [Except.ok.injEq] at h; exact h.symm

theorem passNVariantStep_false {s : SMap} {x : String × FieldVal} {r : Bool}
    (h : passNVariantStep s false x = .ok r) : r = false := by
  unfold passNVariantStep at h
  cases ht : x.2.type? with
  | none => simp only [ht, Except.ok.injEq] at h; exact h.symm
  | some t =>
    simp only [ht] at h
    cases ha : analyze_type t with
    | error e => simp only [ha] at h; cases h
    | ok a =>
      simp only [ha] at h
      by_cases hc : (!(is_primitive_arg a.2.1) && !(alContains forward_delcarations a.2.1)) = true
      · rw [if_pos hc] at h; simp only [Except.ok.injEq] at h; simp [← h]
      · rw [if_neg hc] at h; simp only [Except.ok.injEq] at h; exact h.symm

theorem exceptFold_false {α : Type} {f : Bool → α → Except String Bool}
    (hf : ∀ x r, f false x = .ok r → r = false) {l : List α} {r : Bool}
    (h : exceptFold f false l = .ok r) : r = false :=
  exceptFold_pres (fun b => b = false)
    (fun s x s' hs hp => by subst hp; exact hf x s' hs) h rfl

theorem exceptFold_true_acc {α : Type} {f : Bool → α → Except String Bool}
    (hf : ∀ x r, f false x = .ok r → r = false) {l : List α} {acc : Bool}
    (h : exceptFold f acc l = .ok true) : acc = true := by
  cases hacc : acc with
  | true => rfl
  | false => rw [hacc] at h; exact absurd (exceptFold_false hf h) (by simp)

theorem pass0_fields_all {fields : List (String × FieldVal)}
    (h : exceptFold pass0FieldStep true fields = .ok true) :
    ∀ fd ∈ fields, ∀ t a, fd.2.type? = some t → analyze_type t = .ok a →
      is_primitive_arg (az_pfx ++ a.2.1) = true := by
  intro fd hfd t a ht ha
  obtain ⟨l1, l2, s1, s2, _, _, hstep, h2⟩ := exceptFold_split_full hfd h
  have hs2 : s2 = true := exceptFold_true_acc (fun _ _ h => pass0FieldStep_false h) h2
  unfold pass0FieldStep at hstep
  simp only [ht, ha, Except.ok.injEq] at hstep
  rw [← hstep] at hs2
  exact ((Bool.and_eq_true _ _).mp hs2).2

theorem pass0_variants_all {variants : List (String × FieldVal)}
    (h : exceptFold pass0VariantStep true variants = .ok true) :
    ∀ v ∈ variants, ∀ t a, v.2.type? = some t → analyze_type t = .ok a →
      is_primitive_arg (az_pfx ++ a.2.1) = true := by
  intro v hv t a ht ha
  obtain ⟨l1, l2, s1, s2, _, _, hstep, h2⟩ := exceptFold_split_full hv h
  have hs2 : s2 = true := exceptFold_true_acc (fun _ _ h => pass0VariantStep_false h) h2
  unfold pass0VariantStep at hstep
  simp only [ht, ha, Except.ok.injEq] at hstep
  rw [← hstep] at hs2
  exact ((Bool.and_eq_true _ _).mp hs2).2

theorem passN_fields_all {s : SMap} {fields : List (String × FieldVal)}
    (h : exceptFold (passNFieldStep s) true fields = .ok true) :
    ∀ fd ∈ fields, ∀ t a, fd.2.type? = some t → analyze_type t = .ok a →
      is_primitive_arg a.2.1 = false → alContains forward_delcarations a.2.1 = false →
      alContains s (az_pfx ++ a.2.1) = true := by
  intro fd hfd t a ht ha hprim hfwd
  obtain ⟨l1, l2, s1, s2, _, _, hstep, h2⟩ := exceptFold_split_full hfd h
  have hs2 : s2 = true := exceptFold_true_acc (fun _ _ h => passNFieldStep_false h) h2
  unfold passNFieldStep at hstep
  simp only [ht, ha, hprim, hfwd, Bool.not_false, Bool.and_self, if_true,
    Except.ok.injEq] at hstep
  rw [← hstep] at hs2
  exact ((Bool.and_eq_true _ _).mp hs2).2

theorem passN_variants_all {s : SMap} {variants : List (String × FieldVal)}
    (h : exceptFold (passNVariantStep s) true variants = .ok true) :
    ∀ v ∈ variants, ∀ t a, v.2.type? = some t → analyze_type t = .ok a →
      is_primitive_arg a.2.1 = false → alContains forward_delcarations a.2.1 = false →
      alContains s (az_pfx ++ a.2.1) = true := by
  intro v hv t a ht ha hprim hfwd
  obtain ⟨l1, l2, s1, s2, _, _, hstep, h2⟩ := exceptFold_split_full hv h
  have hs2 : s2 = true := exceptFold_true_acc (fun _ _ h => passNVariantStep_false h) h2
  unfold passNVariantStep at hstep
  simp only [ht, ha, hprim, hfwd, Bool.not_false, Bool.and_self, if_true,
    Except.ok.injEq] at hstep
  rw [← hstep] at hs2
  exact ((Bool.and_eq_true _ _).mp hs2).2

theorem exceptFold_total_mem {σ α : Type} {f : σ → α → Except String σ} {l : List α}
    (hf : ∀ x ∈ l, ∀ s, ∃ s', f s x = .ok s') : ∀ s, ∃ t, exceptFold f s l = .ok t := by
  induction l with
  | nil => intro s; exact ⟨s, rfl⟩
  | cons x r ih =>
    intro s
    obtain ⟨s', hs'⟩ := hf x (List.mem_cons_self _ _) s
    obtain ⟨t, ht⟩ := ih (fun y hy => hf y (List.mem_cons_of_mem _ hy)) s'
    exact ⟨t, by simp only [exceptFold, hs']; exact ht⟩

theorem checked_embeds_spec {e : SMEntry} {b : String} (h : checked_embeds e b = true) :
    ∃ t ∈ blockedFieldTypes e, ∃ a, analyze_type t = .ok a ∧ a.2.1 = b := by
  unfold checked_embeds at h
  obtain ⟨t, htmem, hp⟩ := List.any_eq_true.mp h
  refine ⟨t, htmem, ?_⟩
  cases ha : analyze_type t with
  | error e2 => rw [ha] at hp; cases hp
  | ok a =>
    rw [ha] at hp
    exact ⟨a, rfl, of_decide_eq_true hp⟩

theorem blocked_in_spec {S : List String} {e : SMEntry} (h : blocked_in S e = true) :
    ∃ t ∈ blockedFieldTypes e, ∃ a, analyze_type t = .ok a ∧
      is_primitive_arg a.2.1 = false ∧ alContains forward_delcarations a.2.1 = false ∧
      (az_pfx ++ a.2.1) ∈ S := by
  unfold blocked_in at h
  obtain ⟨t, htmem, hp⟩ := List.any_eq_true.mp h
  refine ⟨t, htmem, ?_⟩
  cases ha : analyze_type t with
  | error e2 => rw [ha] at hp; cases hp
  | ok a =>
    rw [ha] at hp
    simp only [Bool.and_eq_true, Bool.not_eq_true'] at hp
    exact ⟨a, rfl, hp.1.1, hp.1.2, List.mem_of_elem_eq_true hp.2⟩

theorem mem_filterMap_type {l : List (String × FieldVal)} {t : String}
    (h : t ∈ l.filterMap (fun f => f.2.type?)) :
    ∃ fd ∈ l, fd.2.type? = some t := by
  obtain ⟨fd, hfd, ht⟩ := List.mem_filterMap.mp h
  exact ⟨fd, hfd, ht⟩

theorem pass0Check_admits_no_embeds {k : String} {e : SMEntry}
    (h : pass0Check k e = .ok true)
    (hT : typedefTruthy e = false) (hB : boxedTruthy e = false)
    {b : String} (hemb : checked_embeds e b = true) : False := by
  unfold typedefTruthy at hT
  unfold boxedTruthy at hB
  simp only [pass0Check, hT, hB, Bool.or_self, Bool.false_eq_true, if_false] at h
  obtain ⟨t, htmem, a, ha, hab⟩ := checked_embeds_spec hemb
  unfold blockedFieldTypes at htmem
  cases hs : e.struct with
  | some fields =>
    rw [hs] at h htmem
    obtain ⟨fd, hfd, ht⟩ := mem_filterMap_type htmem
    have := pass0_fields_all h fd hfd t a ht ha
    rw [hab] at this
    exact absurd this (by simp [not_prim_az])
  | none =>
    rw [hs] at h htmem
    cases he : e.enum with
    | some variants =>
      rw [he] at h htmem
      simp only [Option.getD_some] at htmem
      obtain ⟨v, hv, ht⟩ := mem_filterMap_type htmem
      have := pass0_variants_all h v hv t a ht ha
      rw [hab] at this
      exact absurd this (by simp [not_prim_az])
    | none =>
      rw [he] at htmem
      simp at htmem

theorem passNCheck_admits_deps {s : SMap} {k : String} {e : SMEntry}
    (h : passNCheck s k e = .ok true)
    (hT : typedefTruthy e = false) {b : String} (hemb : checked_embeds e b = true)
    (hprim : is_primitive_arg b = false)
    (hfwd : alContains forward_delcarations b = false) :
    alContains s (az_pfx ++ b) = true := by
  unfold typedefTruthy at hT
  simp only [passNCheck, hT, Bool.false_eq_true, if_false] at h
  obtain ⟨t, htmem, a, ha, hab⟩ := checked_embeds_spec hemb
  unfold blockedFieldTypes at htmem
  cases hs : e.struct with
  | some fields =>
    rw [hs] at h htmem
    obtain ⟨fd, hfd, ht⟩ := mem_filterMap_type htmem
    have := passN_fields_all h fd hfd t a ht ha (by rw [hab]; exact hprim)
      (by rw [hab]; exact hfwd)
    rw [hab] at this
    exact this
  | none =>
    rw [hs] at h htmem
    cases he : e.enum with
    | some variants =>
      rw [he] at h htmem
      simp only [Option.getD_some] at htmem
      obtain ⟨v, hv, ht⟩ := mem_filterMap_type htmem
      have := passN_variants_all h v hv t a ht ha (by rw [hab]; exact hprim)
        (by rw [hab]; exact hfwd)
      rw [hab] at this
      exact this
    | none =>
      rw [he] at htmem
      simp at htmem

theorem pass0FieldStep_ok_of {fd : String × FieldVal} {t : String}
    {a : String × String × String} (ht : fd.2.type? = some t)
    (ha : analyze_type t = .ok a) (acc : Bool) :
    pass0FieldStep acc fd = .ok (acc && is_primitive_arg (az_pfx ++ a.2.1)) := by
  unfold pass0FieldStep
  simp only [ht, ha]

theorem pass0Check_ok {k : String} {e : SMEntry} (hwf : wellFormedEntry e = true) :
    ∃ r, pass0Check k e = .ok r := by
  by_cases hTB : (typedefTruthy e || boxedTruthy e) = true
  · refine ⟨true, ?_⟩
    unfold typedefTruthy boxedTruthy at hTB
    simp only [pass0Check, hTB, if_true]
  · have hT : typedefTruthy e = false := by
      cases h : typedefTruthy e
      · rfl
      · rw [h] at hTB; simp at hTB
    have hB : boxedTruthy e = false := by
      cases h : boxedTruthy e
      · rfl
      · rw [h] at hTB; simp at hTB
    unfold wellFormedEntry at hwf
    rw [hT, hB] at hwf
    simp only [Bool.false_or] at hwf
    unfold typedefTruthy at hT
    unfold boxedTruthy at hB
    cases hs : e.struct with
    | some fields =>
      simp only [hs] at hwf
      have hsteps : ∀ fd ∈ fields, ∀ acc, ∃ r, pass0FieldStep acc fd = .ok r := by
        intro fd hfd acc
        have hp := List.all_eq_true.mp hwf fd hfd
        cases ht : fd.2.type? with
        | none => simp only [ht] at hp; exact Bool.noConfusion hp
        | some t =>
          simp only [ht] at hp
          cases ha : analyze_type t with
          | error e2 => rw [ha] at hp; simp [isOkE] at hp
          | ok a => exact ⟨_, pass0FieldStep_ok_of ht ha acc⟩
      obtain ⟨r, hr⟩ := exceptFold_total_mem hsteps true
      refine ⟨r, ?_⟩
      simp only [pass0Check, hT, hB, Bool.or_self, Bool.false_eq_true, if_false, hs]
      exact hr
    | none =>
      simp only [hs] at hwf
      cases he : e.enum with
      | some variants =>
        simp only [he] at hwf
        have hsteps : ∀ v ∈ variants, ∀ acc, ∃ r, pass0VariantStep acc v = .ok r := by
          intro v hv acc
          have hp := List.all_eq_true.mp hwf v hv
          cases ht : v.2.type? with
          | none =>
            refine ⟨acc, ?_⟩
            unfold pass0VariantStep
            simp only [ht]
          | some t =>
            simp only [ht] at hp
            cases ha : analyze_type t with
            | error e2 => rw [ha] at hp; simp [isOkE] at hp
            | ok a =>
              refine ⟨acc && is_primitive_arg (az_pfx ++ a.2.1), ?_⟩
              unfold pass0VariantStep
              simp only [ht, ha]
        obtain ⟨r, hr⟩ := exceptFold_total_mem hsteps true
        refine ⟨r, ?_⟩
        simp only [pass0Check, hT, hB, Bool.or_self, Bool.false_eq_true, if_false, hs, he]
        exact hr
      | none => simp only [he] at hwf; exact Bool.noConfusion hwf

theorem passNCheck_ok {s : SMap} {k : String} {e : SMEntry}
    (hwf : wellFormedEntry e = true) (hT : typedefTruthy e = false)
    (hB : boxedTruthy e = false) : ∃ r, passNCheck s k e = .ok r := by
  unfold wellFormedEntry at hwf
  rw [hT, hB] at hwf
  simp only [Bool.false_or] at hwf
  unfold typedefTruthy at hT
  cases hs : e.struct with
  | some fields =>
    simp only [hs] at hwf
    have hsteps : ∀ fd ∈ fields, ∀ acc, ∃ r, passNFieldStep s acc fd = .ok r := by
      intro fd hfd acc
      have hp := List.all_eq_true.mp hwf fd hfd
      cases ht : fd.2.type? with
      | none => simp only [ht] at hp; exact Bool.noConfusion hp
      | some t =>
        simp only [ht] at hp
        cases ha : analyze_type t with
        | error e2 => rw [ha] at hp; simp [isOkE] at hp
        | ok a =>
          unfold passNFieldStep
          simp only [ht, ha]
          by_cases hcond : (!(is_primitive_arg a.2.1) &&
              !(alContains forward_delcarations a.2.1)) = true
          · rw [if_pos hcond]; exact ⟨_, rfl⟩
          · rw [if_neg hcond]; exact ⟨_, rfl⟩
    obtain ⟨r, hr⟩ := exceptFold_total_mem hsteps true
    refine ⟨r, ?_⟩
    simp only [passNCheck, hT, Bool.false_eq_true, if_false, hs]
    exact hr
  | none =>
    simp only [hs] at hwf
    cases he : e.enum with
    | some variants =>
      simp only [he] at hwf
      have hsteps : ∀ v ∈ variants, ∀ acc, ∃ r, passNVariantStep s acc v = .ok r := by
        intro v hv acc
        have hp := List.all_eq_true.mp hwf v hv
        cases ht : v.2.type? with
        | none =>
          refine ⟨acc, ?_⟩
          unfold passNVariantStep
          simp only [ht]
        | some t =>
          simp only [ht] at hp
          cases ha : analyze_type t with
          | error e2 => rw [ha] at hp; simp [isOkE] at hp
          | ok a =>
            unfold passNVariantStep
            simp only [ht, ha]
            by_cases hcond : (!(is_primitive_arg a.2.1) &&
                !(alContains forward_delcarations a.2.1)) = true
            · rw [if_pos hcond]; exact ⟨_, rfl⟩
            · rw [if_neg hcond]; exact ⟨_, rfl⟩
      obtain ⟨r, hr⟩ := exceptFold_total_mem hsteps true
      refine ⟨r, ?_⟩
      simp only [passNCheck, hT, Bool.false_eq_true, if_false, hs, he]
      exact hr
    | none => simp only [he] at hwf; exact Bool.noConfusion hwf

theorem pass0_fields_blocked {fields : List (String × FieldVal)}
    {fd : String × FieldVal} {t : String} {a : String × String × String} {acc r : Bool}
    (hfd : fd ∈ fields) (ht : fd.2.type? = some t) (ha : analyze_type t = .ok a)
    (h : exceptFold pass0FieldStep acc fields = .ok r) : r = false := by
  obtain ⟨l1, l2, s1, s2, _, _, hstep, h2⟩ := exceptFold_split_full hfd h
  unfold pass0FieldStep at hstep
  simp only [ht, ha, Except.ok.injEq] at hstep
  have hs2 : s2 = false := by
    rw [← hstep, not_prim_az, Bool.and_false]
  rw [hs2] at h2
  exact exceptFold_false (fun _ _ hh => pass0FieldStep_false hh) h2

theorem pass0_variants_blocked {variants : List (String × FieldVal)}
    {v : String × FieldVal} {t : String} {a : String × String × String} {acc r : Bool}
    (hv : v ∈ variants) (ht : v.2.type? = some t) (ha : analyze_type t = .ok a)
    (h : exceptFold pass0VariantStep acc variants = .ok r) : r = false := by
  obtain ⟨l1, l2, s1, s2, _, _, hstep, h2⟩ := exceptFold_split_full hv h
  unfold pass0VariantStep at hstep
  simp only [ht, ha, Except.ok.injEq] at hstep
  have hs2 : s2 = false := by
    rw [← hstep, not_prim_az, Bool.and_false]
  rw [hs2] at h2
  exact exceptFold_false (fun _ _ hh => pass0VariantStep_false hh) h2

theorem passN_fields_blocked {s : SMap} {fields : List (String × FieldVal)}
    {fd : String × FieldVal} {t : String} {a : String × String × String} {acc r : Bool}
    (hfd : fd ∈ fields) (ht : fd.2.type? = some t) (ha : analyze_type t = .ok a)
    (hprim : is_primitive_arg a.2.1 = false)
    (hfwd : alContains forward_delcarations a.2.1 = false)
    (hcont : alContains s (az_pfx ++ a.2.1) = false)
    (h : exceptFold (passNFieldStep s) acc fields = .ok r) : r = false := by
  obtain ⟨l1, l2, s1, s2, _, _, hstep, h2⟩ := exceptFold_split_full hfd h
  unfold passNFieldStep at hstep
  simp only [ht, ha, hprim, hfwd, Bool.not_false, Bool.and_self, if_true,
    Except.ok.injEq] at hstep
  have hs2 : s2 = false := by
    rw [← hstep, hcont, Bool.and_false]
  rw [hs2] at h2
  exact exceptFold_false (fun _ _ hh => passNFieldStep_false hh) h2

theorem passN_variants_blocked {s : SMap} {variants : List (String × FieldVal)}
    {v : String × FieldVal} {t : String} {a : String × String × String} {acc r : Bool}
    (hv : v ∈ variants) (ht : v.2.type? = some t) (ha : analyze_type t = .ok a)
    (hprim : is_primitive_arg a.2.1 = false)
    (hfwd : alContains forward_delcarations a.2.1 = false)
    (hcont : alContains s (az_pfx ++ a.2.1) = false)
    (h : exceptFold (passNVariantStep s) acc variants = .ok r) : r = false := by
  obtain ⟨l1, l2, s1, s2, _, _, hstep, h2⟩ := exceptFold_split_full hv h
  unfold passNVariantStep at hstep
  simp only [ht, ha, hprim, hfwd, Bool.not_false, Bool.and_self, if_true,
    Except.ok.injEq] at hstep
  have hs2 : s2 = false := by
    rw [← hstep, hcont, Bool.and_false]
  rw [hs2] at h2
  exact exceptFold_false (fun _ _ hh => passNVariantStep_false hh) h2

theorem pass0Check_blocked {k : String} {e : SMEntry} {S : List String}
    (hT : typedefTruthy e = false) (hB : boxedTruthy e = false)
    (hblk : blocked_in S e = true) (hwf : wellFormedEntry e = true) :
    pass0Check k e = .ok false := by
  obtain ⟨r, hr⟩ := pass0Check_ok (k := k) hwf
  obtain ⟨t, htmem, a, ha, _, _, _⟩ := blocked_in_spec hblk
  have hr0 := hr
  unfold typedefTruthy at hT
  unfold boxedTruthy at hB
  simp only [pass0Check, hT, hB, Bool.or_self, Bool.false_eq_true, if_false] at hr0
  unfold blockedFieldTypes at htmem
  cases hs : e.struct with
  | some fields =>
    rw [hs] at hr0 htmem
    obtain ⟨fd, hfd, ht⟩ := mem_filterMap_type htmem
    have := pass0_fields_blocked hfd ht ha hr0
    rw [this] at hr
    exact hr
  | none =>
    rw [hs] at hr0 htmem
    cases he : e.enum with
    | some variants =>
      rw [he] at hr0 htmem
      simp only [Option.getD_some] at htmem
      obtain ⟨v, hv, ht⟩ := mem_filterMap_type htmem
      have := pass0_variants_blocked hv ht ha hr0
      rw [this] at hr
      exact hr
    | none =>
      rw [he] at htmem
      simp at htmem

theorem passNCheck_blocked {s : SMap} {k : String} {e : SMEntry} {S : List String}
    (hT : typedefTruthy e = false) (hB : boxedTruthy e = false)
    (hblk : blocked_in S e = true) (hwf : wellFormedEntry e = true)
    (hdisj : ∀ kk ∈ S, alContains s kk = false) :
    passNCheck s k e = .ok false := by
  obtain ⟨r, hr⟩ := passNCheck_ok (s := s) (k := k) hwf hT hB
  obtain ⟨t, htmem, a, ha, hprim, hfwd, hmemS⟩ := blocked_in_spec hblk
  have hcont : alContains s (az_pfx ++ a.2.1) = false := hdisj _ hmemS
  have hr0 := hr
  unfold typedefTruthy at hT
  simp only [passNCheck, hT, Bool.false_eq_true, if_false] at hr0
  unfold blockedFieldTypes at htmem
  cases hs : e.struct with
  | some fields =>
    rw [hs] at hr0 htmem
    obtain ⟨fd, hfd, ht⟩ := mem_filterMap_type htmem
    have := passN_fields_blocked hfd ht ha hprim hfwd hcont hr0
    rw [this] at hr
    exact hr
  | none =>
    rw [hs] at hr0 htmem
    cases he : e.enum with
    | some variants =>
      rw [he] at hr0 htmem
      simp only [Option.getD_some] at htmem
      obtain ⟨v, hv, ht⟩ := mem_filterMap_type htmem
      have := passN_variants_blocked hv ht ha hprim hfwd hcont hr0
      rw [this] at hr
      exact hr
    | none =>
      rw [he] at htmem
      simp at htmem

/-! ## The topological-order invariant -/

theorem goodOrder_nil : GoodOrder [] := by
  intro i hi
  simp at hi

theorem goodOrder_append {s : SMap} {k : String} {e : SMEntry}
    (hs : GoodOrder s)
    (hnew : typedefTruthy e = false → boxedTruthy e = false →
      ∀ b, checked_embeds e b = true → is_primitive_arg b = false →
        alContains forward_delcarations b = false → (az_pfx ++ b) ∈ alKeys s) :
    GoodOrder (s ++ [(k, e)]) := by
  intro i hi hT hB b hemb hprim hfwd
  by_cases hlt : i < s.length
  · have hgetI : (s ++ [(k, e)]).get ⟨i, hi⟩ = s.get ⟨i, hlt⟩ := List.get_append i hlt
    rw [hgetI] at hT hB hemb
    obtain ⟨j, hj, hji, hkey⟩ := hs i hlt hT hB b hemb hprim hfwd
    refine ⟨j, by simp; omega, hji, ?_⟩
    rw [List.get_append j hj]
    exact hkey
  · have hieq : i = s.length := by
      simp only [List.length_append, List.length_singleton] at hi
      omega
    have hgetI : (s ++ [(k, e)]).get ⟨i, hi⟩ = (k, e) := by
      subst hieq
      simp
    rw [hgetI] at hT hB hemb
    have hmem := hnew hT hB b hemb hprim hfwd
    unfold alKeys at hmem
    obtain ⟨p, hp, hpk⟩ := List.mem_map.mp hmem
    obtain ⟨j, hj⟩ := List.get_of_mem hp
    refine ⟨j.1, by simp; omega, by omega, ?_⟩
    rw [List.get_append j.1 j.2, hj, hpk]

theorem not_mem_left_of_nodup_mid {α : Type} {A B C : List α} {k : α}
    (h : (A ++ (B ++ k :: C)).Nodup) : k ∉ A ∧ k ∉ B := by
  rw [List.nodup_append] at h
  obtain ⟨hA, hBC, hdisj⟩ := h
  rw [List.nodup_append] at hBC
  obtain ⟨hB, hkC, hdisj2⟩ := hBC
  constructor
  · intro hkA
    exact hdisj hkA (List.mem_append_right B (List.mem_cons_self _ _))
  · intro hkB
    exact hdisj2 hkB (List.mem_cons_self _ _)

theorem perm_swap_mid {α : Type} (A B C : List α) (k : α) :
    List.Perm ((A ++ [k]) ++ (B ++ C)) (A ++ (B ++ k :: C)) := by
  rw [List.append_assoc]
  refine List.Perm.append_left A ?_
  have h1 : ([k] ++ (B ++ C) : List α) = k :: (B ++ C) := rfl
  rw [h1]
  exact List.perm_middle.symm

theorem alKeys_append {α : Type} (x y : AList α) :
    alKeys (x ++ y) = alKeys x ++ alKeys y := by
  unfold alKeys
  exact List.map_append _ x y

theorem pass0_invariant :
    ∀ (l : SMap) (s nf : SMap),
      (alKeys s ++ (alKeys nf ++ alKeys l)).Nodup → GoodOrder s →
      ∀ {s2 nf2 : SMap}, exceptFold pass0Step (s, nf) l = .ok (s2, nf2) →
      GoodOrder s2 ∧ List.Perm (s2 ++ nf2) ((s ++ nf) ++ l) := by
  intro l
  induction l with
  | nil =>
    intro s nf _ hgood s2 nf2 h
    simp only [exceptFold] at h
    cases h
    exact ⟨hgood, by simp⟩
  | cons p rest ih =>
    intro s nf hnd hgood s2 nf2 h
    obtain ⟨k, e⟩ := p
    simp only [exceptFold] at h
    have hkeysl : alKeys ((k, e) :: rest) = k :: alKeys rest := rfl
    rw [hkeysl] at hnd
    have hnotmem := not_mem_left_of_nodup_mid
      (A := alKeys s) (B := alKeys nf) (C := alKeys rest) hnd
    cases hc : pass0Check k e with
    | error e2 =>
      simp only [pass0Step, hc] at h
      cases h
    | ok b =>
      cases b with
      | true =>
        simp only [pass0Step, hc, eq_self_iff_true, if_true] at h
        rw [ainsert_of_not_mem e hnotmem.1] at h
        have hgood2 : GoodOrder (s ++ [(k, e)]) := by
          refine goodOrder_append hgood ?_
          intro hT hB b2 hemb _ _
          exact absurd (pass0Check_admits_no_embeds hc hT hB (b := b2) hemb) (fun hx => hx)
        have hnd2 : (alKeys (s ++ [(k, e)]) ++ (alKeys nf ++ alKeys rest)).Nodup := by
          refine (List.Perm.nodup_iff ?_).mpr hnd
          rw [alKeys_append]
          exact perm_swap_mid _ _ _ _
        obtain ⟨hg, hp⟩ := ih (s ++ [(k, e)]) nf hnd2 hgood2 h
        refine ⟨hg, hp.trans ?_⟩
        rw [List.append_assoc (s ++ [(k, e)]) nf rest, List.append_assoc s nf ((k, e) :: rest)]
        exact perm_swap_mid s nf rest (k, e)
      | false =>
        simp only [pass0Step, hc, Bool.false_eq_true, if_false] at h
        rw [ainsert_of_not_mem e hnotmem.2] at h
        have hnd2 : (alKeys s ++ (alKeys (nf ++ [(k, e)]) ++ alKeys rest)).Nodup := by
          rw [alKeys_append]
          have heq : (alKeys nf ++ alKeys [(k, e)]) ++ alKeys rest =
              alKeys nf ++ k :: alKeys rest := by simp [alKeys]
          rw [heq]
          exact hnd
        obtain ⟨hg, hp⟩ := ih s (nf ++ [(k, e)]) hnd2 hgood h
        refine ⟨hg, hp.trans ?_⟩
        have heq : (s ++ (nf ++ [(k, e)])) ++ rest = (s ++ nf) ++ ((k, e) :: rest) := by
          simp
        rw [heq]

theorem passN_invariant :
    ∀ (l : SMap) (s cur : SMap),
      (alKeys s ++ (alKeys cur ++ alKeys l)).Nodup → GoodOrder s →
      ∀ {s2 cur2 : SMap}, exceptFold passNStep (s, cur) l = .ok (s2, cur2) →
      GoodOrder s2 ∧ List.Perm (s2 ++ cur2) ((s ++ cur) ++ l) := by
  intro l
  induction l with
  | nil =>
    intro s cur _ hgood s2 cur2 h
    simp only [exceptFold] at h
    cases h
    exact ⟨hgood, by simp⟩
  | cons p rest ih =>
    intro s cur hnd hgood s2 cur2 h
    obtain ⟨k, e⟩ := p
    simp only [exceptFold] at h
    have hkeysl : alKeys ((k, e) :: rest) = k :: alKeys rest := rfl
    rw [hkeysl] at hnd
    have hnotmem := not_mem_left_of_nodup_mid
      (A := alKeys s) (B := alKeys cur) (C := alKeys rest) hnd
    cases hc : passNCheck s k e with
    | error e2 =>
      simp only [passNStep, hc] at h
      cases h
    | ok b =>
      cases b with
      | true =>
        simp only [passNStep, hc, eq_self_iff_true, if_true] at h
        rw [ainsert_of_not_mem e hnotmem.1] at h
        have hgood2 : GoodOrder (s ++ [(k, e)]) := by
          refine goodOrder_append hgood ?_
          intro hT _ b2 hemb hprim hfwd
          exact alContains_iff.mp (passNCheck_admits_deps hc hT hemb hprim hfwd)
        have hnd2 : (alKeys (s ++ [(k, e)]) ++ (alKeys cur ++ alKeys rest)).Nodup := by
          refine (List.Perm.nodup_iff ?_).mpr hnd
          rw [alKeys_append]
          exact perm_swap_mid _ _ _ _
        obtain ⟨hg, hp⟩ := ih (s ++ [(k, e)]) cur hnd2 hgood2 h
        refine ⟨hg, hp.trans ?_⟩
        rw [List.append_assoc (s ++ [(k, e)]) cur rest, List.append_assoc s cur ((k, e) :: rest)]
        exact perm_swap_mid s cur rest (k, e)
      | false =>
        simp only [passNStep, hc, Bool.false_eq_true, if_false] at h
        rw [ainsert_of_not_mem e hnotmem.2] at h
        have hnd2 : (alKeys s ++ (alKeys (cur ++ [(k, e)]) ++ alKeys rest)).Nodup := by
          rw [alKeys_append]
          have heq : (alKeys cur ++ alKeys [(k, e)]) ++ alKeys rest =
              alKeys cur ++ k :: alKeys rest := by simp [alKeys]
          rw [heq]
          exact hnd
        obtain ⟨hg, hp⟩ := ih s (cur ++ [(k, e)]) hnd2 hgood h
        refine ⟨hg, hp.trans ?_⟩
        have heq : (s ++ (cur ++ [(k, e)])) ++ rest = (s ++ cur) ++ ((k, e) :: rest) := by
          simp
        rw [heq]

theorem sortLoop_invariant :
    ∀ (fuel : Nat) (s nf : SMap),
      (alKeys s ++ alKeys nf).Nodup → GoodOrder s →
      ∀ {out : SMap}, sortLoop fuel s nf = .ok out →
      GoodOrder out ∧ List.Perm out (s ++ nf) := by
  intro fuel
  induction fuel with
  | zero =>
    intro s nf hnd hgood out h
    rw [sortLoop] at h
    by_cases hemp : nf.isEmpty = true
    · rw [if_pos hemp] at h
      cases h
      have : nf = [] := List.isEmpty_iff.mp hemp
      subst this
      exact ⟨hgood, by simp⟩
    · rw [if_neg hemp] at h
      cases hps : sortPassN s nf with
      | error e => rw [hps] at h; cases h
      | ok p =>
        rw [hps] at h
        cases h
  | succ fuel ih =>
    intro s nf hnd hgood out h
    rw [sortLoop] at h
    by_cases hemp : nf.isEmpty = true
    · rw [if_pos hemp] at h
      cases h
      have : nf = [] := List.isEmpty_iff.mp hemp
      subst this
      exact ⟨hgood, by simp⟩
    · rw [if_neg hemp] at h
      cases hps : sortPassN s nf with
      | error e => rw [hps] at h; cases h
      | ok p =>
        rw [hps] at h
        obtain ⟨s2, nf2⟩ := p
        unfold sortPassN at hps
        have hnd0 : (alKeys s ++ (alKeys ([] : SMap) ++ alKeys nf)).Nodup := by
          simpa [alKeys] using hnd
        obtain ⟨hg2, hp2⟩ := passN_invariant nf s [] hnd0 hgood hps
        have hp2' : List.Perm (s2 ++ nf2) (s ++ nf) := by
          refine hp2.trans ?_
          rw [List.append_nil]
        have hnds : (alKeys (s ++ nf)).Nodup := by rw [alKeys_append]; exact hnd
        have hnd2 : (alKeys s2 ++ alKeys nf2).Nodup := by
          have h0 : (alKeys (s2 ++ nf2)).Nodup :=
            (List.Perm.nodup_iff (hp2'.map Prod.fst)).mpr hnds
          rw [alKeys_append] at h0
          exact h0
        obtain ⟨hg, hp⟩ := ih s2 nf2 hnd2 hg2 h
        exact ⟨hg, hp.trans hp2'⟩

theorem lookup_none_iff {α : Type} {m : AList α} {k : String} :
    alookup m k = none ↔ k ∉ alKeys m := by
  constructor
  · intro h hmem
    have := alookup_isSome_iff_mem_keys.mpr hmem
    rw [h] at this
    cases this
  · intro h
    cases hl : alookup m k with
    | none => rfl
    | some v =>
      exact absurd (alookup_isSome_iff_mem_keys.mp (by rw [hl]; rfl)) h

theorem alookup_eq_of_perm {α : Type} {m m2 : AList α} (hperm : List.Perm m m2)
    (hnd : (alKeys m).Nodup) : ∀ k, alookup m k = alookup m2 k := by
  intro k
  have hnd2 : (alKeys m2).Nodup := (List.Perm.nodup_iff (hperm.map Prod.fst)).mp hnd
  cases hl : alookup m k with
  | none =>
    have hk : k ∉ alKeys m := lookup_none_iff.mp hl
    have hk2 : k ∉ alKeys m2 := by
      intro hmem
      exact hk ((List.Perm.mem_iff (hperm.map Prod.fst)).mpr hmem)
    exact (lookup_none_iff.mpr hk2).symm
  | some v =>
    have hmem : (k, v) ∈ m2 := (List.Perm.mem_iff hperm).mp (alookup_eq_some_mem hl)
    exact (alookup_of_mem_nodup hmem hnd2).symm

theorem exceptBind_ok {α β : Type} (a : α) (f : α → Except String β) :
    (Except.ok a >>= f : Except String β) = f a := rfl

theorem exceptBind_error {α β : Type} (e : String) (f : α → Except String β) :
    (Except.error e >>= f : Except String β) = Except.error e := rfl

/-- The combined sequencer soundness result: on success, the output respects
the dependency order and is a permutation of the input. -/
theorem sort_structs_map_good {m out : SMap} {fwd : AList String}
    (hnd : (alKeys m).Nodup) (h : sort_structs_map m = .ok (out, fwd)) :
    GoodOrder out ∧ List.Perm out m ∧ fwd = forward_delcarations := by
  unfold sort_structs_map at h
  cases hp0 : sortPass0 m with
  | error e => rw [hp0] at h; cases h
  | ok p =>
    rw [hp0] at h
    obtain ⟨s0, nf0⟩ := p
    unfold sortPass0 at hp0
    have hnd0 : (alKeys ([] : SMap) ++ (alKeys ([] : SMap) ++ alKeys m)).Nodup := by
      simpa [alKeys] using hnd
    obtain ⟨hg0, hperm0⟩ := pass0_invariant m [] [] hnd0 goodOrder_nil hp0
    have hperm0' : List.Perm (s0 ++ nf0) m := by
      refine hperm0.trans ?_
      simp
    simp only [exceptBind_ok] at h
    cases hloop : sortLoop 500 s0 nf0 with
    | error e => simp only [hloop, exceptBind_error] at h; cases h
    | ok out0 =>
      simp only [hloop, exceptBind_ok] at h
      have hnd1 : (alKeys s0 ++ alKeys nf0).Nodup := by
        rw [← alKeys_append]
        exact (List.Perm.nodup_iff (hperm0'.map Prod.fst)).mpr hnd
      obtain ⟨hg, hp⟩ := sortLoop_invariant 500 s0 nf0 hnd1 hg0 hloop
      cases h
      exact ⟨hg, hp.trans hperm0', rfl⟩

theorem keyIndex_le_of_get {l : List String} :
    ∀ {j : Nat} (hj : j < l.length), keyIndex l (l.get ⟨j, hj⟩) ≤ j := by
  induction l with
  | nil => intro j hj; simp at hj
  | cons x r ih =>
    intro j hj
    cases j with
    | zero => simp [keyIndex]
    | succ j0 =>
      by_cases hx : x = (x :: r).get ⟨j0 + 1, hj⟩
      · unfold keyIndex
        rw [if_pos hx]
        omega
      · unfold keyIndex
        rw [if_neg hx]
        have := ih (j := j0) (by simpa using hj)
        have hg : (x :: r).get ⟨j0 + 1, hj⟩ = r.get ⟨j0, by simpa using hj⟩ := rfl
        rw [hg]
        omega

theorem keyIndex_eq_of_get_nodup {l : List String} (hnd : l.Nodup) :
    ∀ {i : Nat} (hi : i < l.length) {x : String}, l.get ⟨i, hi⟩ = x → keyIndex l x = i := by
  induction l with
  | nil => intro i hi; simp at hi
  | cons y r ih =>
    intro i hi x hx
    rw [List.nodup_cons] at hnd
    cases i with
    | zero =>
      have : y = x := hx
      unfold keyIndex
      rw [if_pos this]
    | succ i0 =>
      have hg : r.get ⟨i0, by simpa using hi⟩ = x := hx
      have hxr : x ∈ r := by
        rw [← hg]
        exact List.get_mem r _ _
      have hyx : y ≠ x := by
        intro he
        rw [he] at hnd
        exact hnd.1 hxr
      unfold keyIndex
      rw [if_neg hyx]
      rw [ih hnd.2 (by simpa using hi) hg]

theorem alKeys_get {α : Type} (m : AList α) (j : Nat) (hj : j < m.length)
    (hj2 : j < (alKeys m).length) :
    (alKeys m).get ⟨j, hj2⟩ = (m.get ⟨j, hj⟩).1 := by
  unfold alKeys
  simp [List.getElem_map]

theorem alKeys_length {α : Type} (m : AList α) : (alKeys m).length = m.length := by
  unfold alKeys
  simp

theorem embeds_eq_checked {e : SMEntry} (h : ¬(e.struct.isSome ∧ e.enum.isSome))
    (b : String) : embeds_base e b = checked_embeds e b := by
  unfold embeds_base checked_embeds entryFieldTypes blockedFieldTypes
  cases hs : e.struct with
  | some fields =>
    have he : e.enum = none := by
      cases he0 : e.enum with
      | none => rfl
      | some v => exact absurd ⟨by rw [hs]; rfl, by rw [he0]; rfl⟩ h
    rw [he]
    simp
  | none =>
    simp

/-! ## A genuine cycle makes the sequencer raise -/

theorem alContains_false_iff {α : Type} {m : AList α} {k : String} :
    alContains m k = false ↔ k ∉ alKeys m := by
  constructor
  · intro h hmem
    rw [alContains_iff.mpr hmem] at h
    cases h
  · intro h
    cases hc : alContains m k with
    | false => rfl
    | true => exact absurd (alContains_iff.mp hc) h

theorem nodup_mid_not_tail {α : Type} {A B C : List α} {k : α}
    (h : (A ++ (B ++ k :: C)).Nodup) : k ∉ C := by
  rw [List.nodup_append] at h
  obtain ⟨_, hBC, _⟩ := h
  rw [List.nodup_append] at hBC
  obtain ⟨_, hkC, _⟩ := hBC
  rw [List.nodup_cons] at hkC
  exact hkC.1

theorem pass0Check_TB {k : String} {e : SMEntry}
    (h : (typedefTruthy e || boxedTruthy e) = true) : pass0Check k e = .ok true := by
  unfold typedefTruthy boxedTruthy at h
  unfold pass0Check
  rw [if_pos h]

theorem pass0_C5 {S : List String} {Sset : SMap}
    (hS : ∀ p ∈ Sset, blockedPair S p)
    (hcover : ∀ k ∈ S, ∃ e2, (k, e2) ∈ Sset) :
    ∀ (l : SMap) (s nf : SMap),
      (∀ p ∈ l, wellFormedEntry p.2 = true) →
      (∀ k ∈ S, alContains s k = false) →
      (∀ p ∈ Sset, p ∈ nf ∨ p ∈ l) →
      (∀ p ∈ nf, nfEntry p) →
      (alKeys s ++ (alKeys nf ++ alKeys l)).Nodup →
      ∃ s0 nf0, exceptFold pass0Step (s, nf) l = .ok (s0, nf0) ∧
        (∀ k ∈ S, alContains s0 k = false) ∧
        (∀ p ∈ Sset, p ∈ nf0) ∧
        (∀ p ∈ nf0, nfEntry p) := by
  intro l
  induction l with
  | nil =>
    intro s nf _ hdisj hsub hnfE _
    refine ⟨s, nf, rfl, hdisj, ?_, hnfE⟩
    intro p hp
    rcases hsub p hp with h0 | h0
    · exact h0
    · simp at h0
  | cons q rest ih =>
    intro s nf hwfl hdisj hsub hnfE hnd
    obtain ⟨k, e⟩ := q
    have hwfe : wellFormedEntry e = true := hwfl (k, e) (List.mem_cons_self _ _)
    obtain ⟨r, hr⟩ := pass0Check_ok (k := k) hwfe
    have hkeysl : alKeys ((k, e) :: rest) = k :: alKeys rest := rfl
    rw [hkeysl] at hnd
    have hnotmem := not_mem_left_of_nodup_mid
      (A := alKeys s) (B := alKeys nf) (C := alKeys rest) hnd
    have hnottail := nodup_mid_not_tail
      (A := alKeys s) (B := alKeys nf) (C := alKeys rest) hnd
    cases r with
    | true =>
      have hnotS : (k, e) ∉ Sset := by
        intro hmem
        obtain ⟨hT, hB, hblk, hwf2⟩ := hS (k, e) hmem
        rw [pass0Check_blocked hT hB hblk hwf2] at hr
        cases hr
      have hknotS : k ∉ S := by
        intro hkS
        obtain ⟨e2, he2⟩ := hcover k hkS
        rcases hsub (k, e2) he2 with h0 | h0
        · exact hnotmem.2 (List.mem_map_of_mem Prod.fst h0)
        · rcases List.mem_cons.mp h0 with h1 | h1
          · obtain ⟨_, h2⟩ := Prod.mk.injEq .. ▸ h1
            subst h2
            exact hnotS he2
          · exact hnottail (List.mem_map_of_mem Prod.fst h1)
      have hdisj2 : ∀ k2 ∈ S, alContains (s ++ [(k, e)]) k2 = false := by
        intro k2 hk2
        rw [alContains_false_iff, alKeys_append]
        intro hmem
        rcases List.mem_append.mp hmem with h0 | h0
        · exact alContains_false_iff.mp (hdisj k2 hk2) h0
        · have : k2 = k := by simpa [alKeys] using h0
          subst this
          exact hknotS hk2
      have hsub2 : ∀ p ∈ Sset, p ∈ nf ∨ p ∈ rest := by
        intro p hp
        rcases hsub p hp with h0 | h0
        · exact Or.inl h0
        · rcases List.mem_cons.mp h0 with h1 | h1
          · subst h1
            exact absurd hp hnotS
          · exact Or.inr h1
      have hnd2 : (alKeys (s ++ [(k, e)]) ++ (alKeys nf ++ alKeys rest)).Nodup := by
        refine (List.Perm.nodup_iff ?_).mpr hnd
        rw [alKeys_append]
        exact perm_swap_mid _ _ _ _
      obtain ⟨s0, nf0, hfold, hd0, hs0, hn0⟩ := ih (s ++ [(k, e)]) nf
        (fun p hp => hwfl p (List.mem_cons_of_mem _ hp)) hdisj2 hsub2 hnfE hnd2
      refine ⟨s0, nf0, ?_, hd0, hs0, hn0⟩
      simp only [exceptFold, pass0Step, hr, eq_self_iff_true, if_true]
      rw [ainsert_of_not_mem e hnotmem.1]
      exact hfold
    | false =>
      have hTB : (typedefTruthy e || boxedTruthy e) = false := by
        cases htb : (typedefTruthy e || boxedTruthy e) with
        | false => rfl
        | true => rw [pass0Check_TB htb] at hr; cases hr
      have hnfE2 : ∀ p ∈ nf ++ [(k, e)], nfEntry p := by
        intro p hp
        rcases List.mem_append.mp hp with h0 | h0
        · exact hnfE p h0
        · have : p = (k, e) := by simpa using h0
          subst this
          refine ⟨hwfe, ?_, ?_⟩
          · exact (Bool.or_eq_false_iff.mp hTB).1
          · exact (Bool.or_eq_false_iff.mp hTB).2
      have hsub2 : ∀ p ∈ Sset, p ∈ nf ++ [(k, e)] ∨ p ∈ rest := by
        intro p hp
        rcases hsub p hp with h0 | h0
        · exact Or.inl (List.mem_append_left _ h0)
        · rcases List.mem_cons.mp h0 with h1 | h1
          · subst h1
            exact Or.inl (List.mem_append_right _ (List.mem_singleton.mpr rfl))
          · exact Or.inr h1
      have hnd2 : (alKeys s ++ (alKeys (nf ++ [(k, e)]) ++ alKeys rest)).Nodup := by
        rw [alKeys_append]
        have heq : (alKeys nf ++ alKeys [(k, e)]) ++ alKeys rest =
            alKeys nf ++ k :: alKeys rest := by simp [alKeys]
        rw [heq]
        exact hnd
      obtain ⟨s0, nf0, hfold, hd0, hs0, hn0⟩ := ih s (nf ++ [(k, e)])
        (fun p hp => hwfl p (List.mem_cons_of_mem _ hp)) hdisj hsub2 hnfE2 hnd2
      refine ⟨s0, nf0, ?_, hd0, hs0, hn0⟩
      simp only [exceptFold, pass0Step, hr, Bool.false_eq_true, if_false]
      rw [ainsert_of_not_mem e hnotmem.2]
      exact hfold

theorem passN_C5 {S : List String} {Sset : SMap}
    (hS : ∀ p ∈ Sset, blockedPair S p)
    (hcover : ∀ k ∈ S, ∃ e2, (k, e2) ∈ Sset) :
    ∀ (l : SMap) (s cur : SMap),
      (∀ p ∈ l, nfEntry p) →
      (∀ k ∈ S, alContains s k = false) →
      (∀ p ∈ Sset, p ∈ cur ∨ p ∈ l) →
      (∀ p ∈ cur, nfEntry p) →
      (alKeys s ++ (alKeys cur ++ alKeys l)).Nodup →
      ∃ s2 cur2, exceptFold passNStep (s, cur) l = .ok (s2, cur2) ∧
        (∀ k ∈ S, alContains s2 k = false) ∧
        (∀ p ∈ Sset, p ∈ cur2) ∧
        (∀ p ∈ cur2, nfEntry p) := by
  intro l
  induction l with
  | nil =>
    intro s cur _ hdisj hsub hnfE _
    refine ⟨s, cur, rfl, hdisj, ?_, hnfE⟩
    intro p hp
    rcases hsub p hp with h0 | h0
    · exact h0
    · simp at h0
  | cons q rest ih =>
    intro s cur hnfl hdisj hsub hnfE hnd
    obtain ⟨k, e⟩ := q
    obtain ⟨hwfe, hTe, hBe⟩ := hnfl (k, e) (List.mem_cons_self _ _)
    obtain ⟨r, hr⟩ := passNCheck_ok (s := s) (k := k) hwfe hTe hBe
    have hkeysl : alKeys ((k, e) :: rest) = k :: alKeys rest := rfl
    rw [hkeysl] at hnd
    have hnotmem := not_mem_left_of_nodup_mid
      (A := alKeys s) (B := alKeys cur) (C := alKeys rest) hnd
    have hnottail := nodup_mid_not_tail
      (A := alKeys s) (B := alKeys cur) (C := alKeys rest) hnd
    cases r with
    | true =>
      have hnotS : (k, e) ∉ Sset := by
        intro hmem
        obtain ⟨hT, hB, hblk, hwf2⟩ := hS (k, e) hmem
        rw [passNCheck_blocked hT hB hblk hwf2 hdisj] at hr
        cases hr
      have hknotS : k ∉ S := by
        intro hkS
        obtain ⟨e2, he2⟩ := hcover k hkS
        rcases hsub (k, e2) he2 with h0 | h0
        · exact hnotmem.2 (List.mem_map_of_mem Prod.fst h0)
        · rcases List.mem_cons.mp h0 with h1 | h1
          · obtain ⟨_, h2⟩ := Prod.mk.injEq .. ▸ h1
            subst h2
            exact hnotS he2
          · exact hnottail (List.mem_map_of_mem Prod.fst h1)
      have hdisj2 : ∀ k2 ∈ S, alContains (s ++ [(k, e)]) k2 = false := by
        intro k2 hk2
        rw [alContains_false_iff, alKeys_append]
        intro hmem
        rcases List.mem_append.mp hmem with h0 | h0
        · exact alContains_false_iff.mp (hdisj k2 hk2) h0
        · have : k2 = k := by simpa [alKeys] using h0
          subst this
          exact hknotS hk2
      have hsub2 : ∀ p ∈ Sset, p ∈ cur ∨ p ∈ rest := by
        intro p hp
        rcases hsub p hp with h0 | h0
        · exact Or.inl h0
        · rcases List.mem_cons.mp h0 with h1 | h1
          · subst h1
            exact absurd hp hnotS
          · exact Or.inr h1
      have hnd2 : (alKeys (s ++ [(k, e)]) ++ (alKeys cur ++ alKeys rest)).Nodup := by
        refine (List.Perm.nodup_iff ?_).mpr hnd
        rw [alKeys_append]
        exact perm_swap_mid _ _ _ _
      obtain ⟨s2, cur2, hfold, hd0, hs0, hn0⟩ := ih (s ++ [(k, e)]) cur
        (fun p hp => hnfl p (List.mem_cons_of_mem _ hp)) hdisj2 hsub2 hnfE hnd2
      refine ⟨s2, cur2, ?_, hd0, hs0, hn0⟩
      simp only [exceptFold, passNStep, hr, eq_self_iff_true, if_true]
      rw [ainsert_of_not_mem e hnotmem.1]
      exact hfold
    | false =>
      have hnfE2 : ∀ p ∈ cur ++ [(k, e)], nfEntry p := by
        intro p hp
        rcases List.mem_append.mp hp with h0 | h0
        · exact hnfE p h0
        · have : p = (k, e) := by simpa using h0
          subst this
          exact ⟨hwfe, hTe, hBe⟩
      have hsub2 : ∀ p ∈ Sset, p ∈ cur ++ [(k, e)] ∨ p ∈ rest := by
        intro p hp
        rcases hsub p hp with h0 | h0
        · exact Or.inl (List.mem_append_left _ h0)
        · rcases List.mem_cons.mp h0 with h1 | h1
          · subst h1
            exact Or.inl (List.mem_append_right _ (List.mem_singleton.mpr rfl))
          · exact Or.inr h1
      have hnd2 : (alKeys s ++ (alKeys (cur ++ [(k, e)]) ++ alKeys rest)).Nodup := by
        rw [alKeys_append]
        have heq : (alKeys cur ++ alKeys [(k, e)]) ++ alKeys rest =
            alKeys cur ++ k :: alKeys rest := by simp [alKeys]
        rw [heq]
        exact hnd
      obtain ⟨s2, cur2, hfold, hd0, hs0, hn0⟩ := ih s (cur ++ [(k, e)])
        (fun p hp => hnfl p (List.mem_cons_of_mem _ hp)) hdisj hsub2 hnfE2 hnd2
      refine ⟨s2, cur2, ?_, hd0, hs0, hn0⟩
      simp only [exceptFold, passNStep, hr, Bool.false_eq_true, if_false]
      rw [ainsert_of_not_mem e hnotmem.2]
      exact hfold

theorem loop_C5 {S : List String} {Sset : SMap}
    (hS : ∀ p ∈ Sset, blockedPair S p)
    (hcover : ∀ k ∈ S, ∃ e2, (k, e2) ∈ Sset)
    (hSne : Sset ≠ []) :
    ∀ (fuel : Nat) (s nf : SMap),
      GoodOrder s →
      (∀ k ∈ S, alContains s k = false) →
      (∀ p ∈ Sset, p ∈ nf) →
      (∀ p ∈ nf, nfEntry p) →
      (alKeys s ++ alKeys nf).Nodup →
      ∃ nfF, sortLoop fuel s nf = .error (cyclic_msg nfF) ∧ ∀ p ∈ Sset, p ∈ nfF := by
  intro fuel
  induction fuel with
  | zero =>
    intro s nf hgood hdisj hsub hnfE hnd
    have hne : nf.isEmpty = false := by
      obtain ⟨p, hp⟩ := List.exists_mem_of_ne_nil Sset hSne
      have := hsub p hp
      cases nf with
      | nil => simp at this
      | cons a b => rfl
    have hnd0 : (alKeys s ++ (alKeys ([] : SMap) ++ alKeys nf)).Nodup := by
      simpa [alKeys] using hnd
    obtain ⟨s2, cur2, hfold, _, hsub2, _⟩ := passN_C5 hS hcover nf s [] hnfE hdisj
      (fun p hp => Or.inr (hsub p hp)) (fun p hp => absurd hp (by simp)) hnd0
    refine ⟨cur2, ?_, hsub2⟩
    rw [sortLoop]
    rw [if_neg (by rw [hne]; simp)]
    have hps : sortPassN s nf = .ok (s2, cur2) := hfold
    rw [hps]
  | succ fuel ih =>
    intro s nf hgood hdisj hsub hnfE hnd
    have hne : nf.isEmpty = false := by
      obtain ⟨p, hp⟩ := List.exists_mem_of_ne_nil Sset hSne
      have := hsub p hp
      cases nf with
      | nil => simp at this
      | cons a b => rfl
    have hnd0 : (alKeys s ++ (alKeys ([] : SMap) ++ alKeys nf)).Nodup := by
      simpa [alKeys] using hnd
    obtain ⟨s2, cur2, hfold, hdisj2, hsub2, hnfE2⟩ := passN_C5 hS hcover nf s [] hnfE hdisj
      (fun p hp => Or.inr (hsub p hp)) (fun p hp => absurd hp (by simp)) hnd0
    have hps : sortPassN s nf = .ok (s2, cur2) := hfold
    obtain ⟨hg2, hperm2⟩ := passN_invariant nf s [] hnd0 hgood hfold
    have hperm2' : List.Perm (s2 ++ cur2) (s ++ nf) := by
      refine hperm2.trans ?_
      rw [List.append_nil]
    have hnd2 : (alKeys s2 ++ alKeys cur2).Nodup := by
      have hnds : (alKeys (s ++ nf)).Nodup := by rw [alKeys_append]; exact hnd
      have h0 : (alKeys (s2 ++ cur2)).Nodup :=
        (List.Perm.nodup_iff (hperm2'.map Prod.fst)).mpr hnds
      rw [alKeys_append] at h0
      exact h0
    obtain ⟨nfF, hloop, hsubF⟩ := ih s2 cur2 hg2 hdisj2 hsub2 hnfE2 hnd2
    refine ⟨nfF, ?_, hsubF⟩
    rw [sortLoop]
    rw [if_neg (by rw [hne]; simp)]
    rw [hps]
    exact hloop

/-! ## Resolution lemmas -/

theorem find?_append_some {α : Type} {p : α → Bool} {l1 l2 : List α} {x : α}
    (h : l1.find? p = some x) : (l1 ++ l2).find? p = some x := by
  induction l1 with
  | nil => simp [List.find?] at h
  | cons a r ih =>
    by_cases ha : p a = true
    · rw [List.find?_cons_of_pos _ ha] at h
      rw [List.cons_append, List.find?_cons_of_pos _ ha]
      exact h
    · rw [List.find?_cons_of_neg _ (by simpa using ha)] at h
      rw [List.cons_append, List.find?_cons_of_neg _ (by simpa using ha)]
      exact ih h

theorem find?_append_none {α : Type} {p : α → Bool} {l1 l2 : List α}
    (h : l1.find? p = none) : (l1 ++ l2).find? p = l2.find? p := by
  induction l1 with
  | nil => simp
  | cons a r ih =>
    by_cases ha : p a = true
    · rw [List.find?_cons_of_pos _ ha] at h
      cases h
    · rw [List.find?_cons_of_neg _ (by simpa using ha)] at h
      rw [List.cons_append, List.find?_cons_of_neg _ (by simpa using ha)]
      exact ih h

theorem search_in_classes_eq (mn n : String) :
    ∀ cs : List (String × ApiClass),
      search_in_classes mn n cs =
        ((cs.map (fun q => (mn, q.1, q.2))).find? (matchesName n)).map
          (fun x => (x.1, x.2.1)) := by
  intro cs
  induction cs with
  | nil => rfl
  | cons q r ih =>
    obtain ⟨cn, c⟩ := q
    by_cases hm : matchesName n (mn, cn, c) = true
    · unfold search_in_classes
      rw [if_pos (show (decide (c.rust_class_name.getD cn = n) ||
        decide (cn = n)) = true from hm)]
      rw [List.map_cons, List.find?_cons_of_pos _ hm]
      rfl
    · unfold search_in_classes
      rw [if_neg (show ¬((decide (c.rust_class_name.getD cn = n) ||
        decide (cn = n)) = true) from hm)]
      rw [List.map_cons, List.find?_cons_of_neg _ hm]
      exact ih

theorem search_eq_find :
    ∀ (apiData : ApiData) (n : String),
      search_for_class_by_rust_class_name apiData n =
        ((allClasses apiData).find? (matchesName n)).map (fun x => (x.1, x.2.1)) := by
  intro apiData
  induction apiData with
  | nil => intro n; rfl
  | cons p rest ih =>
    intro n
    obtain ⟨mn, m⟩ := p
    unfold search_for_class_by_rust_class_name
    have hall : allClasses ((mn, m) :: rest) =
        (m.classes.map (fun q => (mn, q.1, q.2))) ++ allClasses rest := by
      unfold allClasses
      rw [List.flatMap_cons]
    rw [hall]
    rw [search_in_classes_eq mn n m.classes]
    cases hf : (m.classes.map (fun q => (mn, q.1, q.2))).find? (matchesName n) with
    | some x =>
      rw [find?_append_some hf]
      rfl
    | none =>
      rw [find?_append_none hf]
      exact ih n

theorem fnArgsStep_prim_eq (apiA apiB : ApiData) {an at2 : String}
    {st b en : String} (hself : an ≠ "self")
    (ha : analyze_type at2 = .ok (st, b, en)) (hprim : is_primitive_arg b = true)
    (acc : String) :
    fnArgsStep apiA acc (an, at2) = fnArgsStep apiB acc (an, at2) := by
  unfold fnArgsStep
  rw [if_neg (show ¬((an, at2).1 = "self") from hself)]
  rw [if_neg (show ¬((an, at2).1 = "self") from hself)]
  simp only [ha, hprim, if_true]

theorem fn_args_fold_prim_eq (apiA apiB : ApiData) :
    ∀ (args : List (String × String)),
      (∀ an at2, (an, at2) ∈ args → an ≠ "self" →
        ∃ st b en, analyze_type at2 = .ok (st, b, en) ∧ is_primitive_arg b = true) →
      ∀ acc, exceptFold (fnArgsStep apiA) acc args = exceptFold (fnArgsStep apiB) acc args := by
  intro args
  induction args with
  | nil => intro _ acc; simp only [exceptFold]
  | cons q rest ih =>
    intro hcond acc
    obtain ⟨an, at2⟩ := q
    by_cases hself : an = "self"
    · subst hself
      have hstep : ∀ api : ApiData, fnArgsStep api acc ("self", at2) = .ok acc := by
        intro api
        unfold fnArgsStep
        simp only [eq_self_iff_true, if_true]
      simp only [exceptFold, hstep]
      exact ih (fun a t hm hs => hcond a t (List.mem_cons_of_mem _ hm) hs) acc
    · obtain ⟨st, b, en, ha, hprim⟩ := hcond an at2 (List.mem_cons_self _ _) hself
      have heq := fnArgsStep_prim_eq apiA apiB hself ha hprim acc
      simp only [exceptFold, heq]
      cases hs : fnArgsStep apiB acc (an, at2) with
      | error e => rfl
      | ok acc2 =>
        exact ih (fun a t hm hs2 => hcond a t (List.mem_cons_of_mem _ hm) hs2) acc2

theorem fn_args_c_api_prim_independent (f : ApiFn) (cn cpn : String) (selfArg : Bool)
    (apiA apiB : ApiData)
    (hcond : ∀ an at2, (an, at2) ∈ f.fn_args.getD [] → an ≠ "self" →
      ∃ st b en, analyze_type at2 = .ok (st, b, en) ∧ is_primitive_arg b = true) :
    fn_args_c_api f cn cpn selfArg apiA = fn_args_c_api f cn cpn selfArg apiB := by
  unfold fn_args_c_api
  cases hx : (if selfArg = true then fnArgsSelfPart f cn cpn else Except.ok "") with
  | error e => simp only [hx]
  | ok v =>
    simp only [hx]
    cases hargs : f.fn_args with
    | none => simp only [hargs]
    | some args =>
      have hc2 : ∀ an at2, (an, at2) ∈ args → an ≠ "self" →
          ∃ st b en, analyze_type at2 = .ok (st, b, en) ∧ is_primitive_arg b = true := by
        intro an at2 hm hs
        exact hcond an at2 (by rw [hargs]; exact hm) hs
      simp only [hargs]
      rw [fn_args_fold_prim_eq apiA apiB args hc2 v]

theorem fn_args_c_api_unresolved (f : ApiFn) (cn cpn : String) (selfArg : Bool)
    (api : ApiData) {an at2 st b en : String}
    (hmem : (an, at2) ∈ f.fn_args.getD []) (hself : an ≠ "self")
    (ha : analyze_type at2 = .ok (st, b, en)) (hprim : is_primitive_arg b = false)
    (hsearch : search_for_class_by_rust_class_name api b = none) :
    ∃ msg, fn_args_c_api f cn cpn selfArg api = .error msg := by
  unfold fn_args_c_api
  cases hx : (if selfArg = true then fnArgsSelfPart f cn cpn else Except.ok "") with
  | error e => exact ⟨e, by simp only [hx]⟩
  | ok v =>
    cases hargs : f.fn_args with
    | none =>
      rw [hargs] at hmem
      simp at hmem
    | some args =>
      rw [hargs] at hmem
      simp only [Option.getD_some] at hmem
      cases hfold : exceptFold (fnArgsStep api) v args with
      | error e => exact ⟨e, by simp only [hx, hargs, hfold]⟩
      | ok r =>
        exfalso
        obtain ⟨s1, s2, hstep⟩ := exceptFold_split hmem hfold
        unfold fnArgsStep at hstep
        simp only [if_neg hself, ha, hprim, Bool.false_eq_true, if_false, hsearch] at hstep
        cases hstep

/-! ## Generator-side helper lemmas -/

theorem exceptPure {α : Type} (a : α) : (pure a : Except String α) = Except.ok a := rfl

theorem keyGet_some {α : Type} (a : α) (msg : String) : keyGet (some a) msg = .ok a := rfl

theorem alookup_ainsert_self {α : Type} (m : AList α) (k : String) (v : α) :
    alookup (ainsert m k v) k = some v := by
  induction m with
  | nil => simp [ainsert, alookup]
  | cons p r ih =>
    obtain ⟨a, b⟩ := p
    by_cases h : a = k
    · subst h
      simp [ainsert, alookup]
    · simp only [ainsert, if_neg h, alookup]
      exact ih

theorem alContains_ainsert_self {α : Type} (m : AList α) (k : String) (v : α) :
    alContains (ainsert m k v) k = true := by
  rw [alContains, alookup_ainsert_self]
  rfl

theorem alContains_ainsert_mono {α : Type} {m : AList α} {k' : String} (k : String) (v : α)
    (h : alContains m k' = true) : alContains (ainsert m k v) k' = true := by
  induction m with
  | nil => simp [alContains, alookup] at h
  | cons p r ih =>
    obtain ⟨a, b⟩ := p
    by_cases hak : a = k
    · subst hak
      simp only [ainsert, if_pos rfl]
      simp only [alContains, alookup] at h ⊢
      by_cases hk' : a = k'
      · rw [if_pos hk']; rfl
      · rw [if_neg hk'] at h ⊢; exact h
    · simp only [ainsert, if_neg hak]
      simp only [alContains, alookup] at h ⊢
      by_cases hk' : a = k'
      · rw [if_pos hk']; rfl
      · rw [if_neg hk'] at h ⊢; exact ih h

theorem pairs_snd_mem {sm : SMap} {a b : String} (h : (a, b) ∈ sizeTestAssertPairs sm) :
    b ∈ alKeys sm := by
  unfold sizeTestAssertPairs at h
  obtain ⟨p, hp, hmap⟩ := List.mem_filterMap.mp h
  cases hx : p.2.external with
  | none => rw [hx] at hmap; cases hmap
  | some ext =>
    rw [hx] at hmap
    simp only [Option.map, Option.some.injEq, Prod.mk.injEq] at hmap
    rw [← hmap.2]
    exact List.mem_map.mpr ⟨p, hp, rfl⟩

theorem assertPairs_cons (p : String × SMEntry) (rest : SMap) :
    sizeTestAssertPairs (p :: rest) =
      (match p.2.external with
       | some ext => [(ext, p.1)]
       | none => []) ++ sizeTestAssertPairs rest := by
  unfold sizeTestAssertPairs
  rw [List.filterMap_cons]
  cases p.2.external with
  | none => simp [Option.map]
  | some ext => simp [Option.map]

theorem assertPairs_count {sm : SMap} (hnd : (alKeys sm).Nodup) :
    ∀ {k : String} {e : SMEntry} {ext : String}, (k, e) ∈ sm → e.external = some ext →
      (sizeTestAssertPairs sm).count (ext, k) = 1 := by
  induction sm with
  | nil =>
    intro k e ext hm
    simp at hm
  | cons p rest ih =>
    intro k e ext hm hext
    have hk : alKeys (p :: rest) = p.1 :: alKeys rest := rfl
    rw [hk, List.nodup_cons] at hnd
    rw [assertPairs_cons]
    rcases List.mem_cons.mp hm with h1 | h1
    · have hp1 : p = (k, e) := h1.symm
      subst hp1
      have hcount0 : (sizeTestAssertPairs rest).count (ext, k) = 0 := by
        rw [List.count_eq_zero]
        intro hc
        exact hnd.1 (pairs_snd_mem hc)
      simp only [hext, List.count_append, hcount0, List.singleton_append,
        List.count_cons_self]
    · have hkr : k ∈ alKeys rest := List.mem_map.mpr ⟨(k, e), h1, rfl⟩
      have hne : p.1 ≠ k := fun hc => hnd.1 (hc ▸ hkr)
      have hrest := ih hnd.2 h1 hext
      cases hx : p.2.external with
      | none =>
        simp only [hx, List.nil_append]
        exact hrest
      | some ext2 =>
        simp only [hx, List.singleton_append]
        rw [List.count_cons_of_ne, hrest]
        intro hc
        rw [Prod.mk.injEq] at hc
        exact hne hc.2.symm

theorem strJoin_split {x : String} : ∀ {l : List String}, x ∈ l →
    ∃ p q, strJoin l = p ++ (x ++ q) := by
  intro l
  induction l with
  | nil => intro h; simp at h
  | cons a r ih =>
    intro h
    rcases List.mem_cons.mp h with h1 | h1
    · subst h1
      exact ⟨"", strJoin r, by rw [strJoin]; simp⟩
    · obtain ⟨p, q, hpq⟩ := ih h1
      exact ⟨a ++ p, q, by rw [strJoin, hpq, String.append_assoc]⟩

theorem sizeTest_contains {patches : PatchMap} {apiDataAll : List (String × ApiData)}
    {sm : SMap} {out : String} (hgen : generate_size_test patches apiDataAll sm = .ok out)
    {a b : String} (hmem : (a, b) ∈ sizeTestAssertPairs sm) :
    ∃ pre post, out = pre ++ (assert_line (a, b) ++ post) := by
  unfold generate_size_test at hgen
  cases hv : keyGet (apiDataAll.map Prod.fst).getLast? "IndexError: list index out of range" with
  | error e => rw [hv] at hgen; cases hgen
  | ok version =>
    rw [hv] at hgen
    simp only [exceptBind_ok] at hgen
    cases hg : generate_structs apiDataAll sm version with
    | error e => rw [hg] at hgen; cases hgen
    | ok gs =>
      rw [hg] at hgen
      simp only [exceptBind_ok, exceptPure] at hgen
      cases hgen
      have hml : assert_line (a, b) ∈ (sizeTestAssertPairs sm).map assert_line :=
        List.mem_map.mpr ⟨(a, b), hmem, rfl⟩
      obtain ⟨p, q, hpq⟩ := strJoin_split hml
      rw [hpq]
      refine ⟨"#[cfg(test)]\x0d\n" ++ "mod test_sizes \x7b\x0d\n" ++
        (match patch_get patches ["dll"] with | some p => p | none => "") ++ gs ++
        "    use core::ffi::c_void;\x0d\n" ++ "    use azul_impl::css::*;\x0d\n" ++ "\x0d\n" ++
        "    #[test]\x0d\n" ++ "    fn test_size() \x7b\x0d\n" ++
        "         use core::alloc::Layout;\x0d\n" ++ p,
        q ++ ("    \x7d\x0d\n" ++ "\x7d\x0d\n"), ?_⟩
      simp only [String.append_assoc]

theorem decl_section_boxed (class_name class_ptr_name struct_doc : String)
    (c : ApiClass) (treat_external_as_ptr : Bool) (struct_derive : List String)
    (code : String) (sm : SMap) {ext : String}
    (hext : c.external = some ext) (hconst : c.const = none) :
    alookup (decl_section class_name class_ptr_name struct_doc c true
      treat_external_as_ptr struct_derive (code, sm)).2 class_ptr_name =
      some { external := some ext, derive := some struct_derive, doc := some struct_doc,
             struct := some [("ptr", { type? := some "*mut c_void" })] } := by
  unfold decl_section
  simp only [hext, hconst, if_true, eq_self_iff_true]
  cases treat_external_as_ptr with
  | false => exact alookup_ainsert_self _ _ _
  | true => exact alookup_ainsert_self _ _ _

/-! ## The claims -/

/-- Claim C1: `class_is_stack_allocated` returns `true` exactly when the class
declares an `external` path and at least one inline layout key among
`struct_fields`, `enum_fields`, `typedef` and `const`; every other class is
boxed-opaque. -/
theorem classifier_stack_iff (c : ApiClass) :
    class_is_stack_allocated c = true ↔
      (c.external.isSome = true ∧
        (c.struct_fields.isSome = true ∨ c.enum_fields.isSome = true ∨
         c.typedef.isSome = true ∨ c.const.isSome = true)) := by
  unfold class_is_stack_allocated
  simp [Bool.not_not, Bool.and_eq_true, Bool.or_eq_true, or_assoc]

/-- Claim C2 (amended): on a duplicate-free map, when `sort_structs_map`
returns normally, every entry that is not typedef-flagged, not boxed-flagged
and not carrying both a struct and an enum key sees each of its embedded,
non-primitive, non-forward-declared base types appear strictly earlier in the
output ordering. -/
theorem embed_order_amended {m out : SMap} {fwd : AList String}
    (hnd : (alKeys m).Nodup) (h : sort_structs_map m = .ok (out, fwd))
    {i : Nat} (hi : i < out.length)
    (htd : typedefTruthy (out.get ⟨i, hi⟩).2 = false)
    (hbx : boxedTruthy (out.get ⟨i, hi⟩).2 = false)
    (hse : ¬((out.get ⟨i, hi⟩).2.struct.isSome ∧ (out.get ⟨i, hi⟩).2.enum.isSome))
    {b : String} (hemb : embeds_base (out.get ⟨i, hi⟩).2 b = true)
    (hprim : is_primitive_arg b = false)
    (hfwd : alContains forward_delcarations b = false) :
    ∃ j, ∃ hj : j < out.length, j < i ∧ (out.get ⟨j, hj⟩).1 = az_pfx ++ b := by
  obtain ⟨hg, _, _⟩ := sort_structs_map_good hnd h
  have hc : checked_embeds (out.get ⟨i, hi⟩).2 b = true := by
    rw [← embeds_eq_checked hse]
    exact hemb
  exact hg i hi htd hbx b hc hprim hfwd

/-- Claim C2 (counterexample to the unamended claim): a typedef-flagged entry
that also declares a struct field of base type `Dom` is admitted before
`AzDom`, so the embedded entity does not precede the embedding one even
though the reference is not forward-declared. -/
theorem embed_order_cex :
    sort_structs_map mapTypedefCex = .ok (mapTypedefCex, forward_delcarations) ∧
    alookup mapTypedefCex "AzA" = some entTypedefCex ∧
    embeds_base entTypedefCex "Dom" = true ∧
    is_primitive_arg "Dom" = false ∧
    alContains forward_delcarations "Dom" = false ∧
    alContains mapTypedefCex (az_pfx ++ "Dom") = true ∧
    keyIndex (alKeys mapTypedefCex) "AzA" = 0 ∧
    keyIndex (alKeys mapTypedefCex) (az_pfx ++ "Dom") = 1 := by
  decide

/-- Claim C2 (witness): the amended ordering theorem applied to a concrete
two-entry map. -/
theorem embed_order_witness :
    ∃ j, ∃ hj : j < mapDomPair.length,
      j < 1 ∧ (mapDomPair.get ⟨j, hj⟩).1 = az_pfx ++ "Dom" :=
  embed_order_amended (m := mapDomPair) (by decide)
    (show sort_structs_map mapDomPair = .ok (mapDomPair, forward_delcarations) by decide)
    (i := 1) (by decide) (by decide) (by decide) (by decide) (b := "Dom") (by decide)
    (by decide) (by decide)

/-- Claim C3 (amended): when a class-scope override is registered and the
class is marked patched, `process_class` substitutes the class-scope text and
returns immediately — no member of the class is processed, so a member-scope
override never reaches the output for that class; a member-scope override is
substituted for the member body only when the class-scope branch is not
taken. -/
theorem class_patch_wins_amended (patches : PatchMap) (apiData : ApiData)
    (module_name : String) (st : GenState) (class_name : String) (c : ApiClass) {P : String}
    (hp : patch_get patches [module_name, class_name] = some P)
    (hm : classPatchMarked c "dll" = true) :
    process_class patches apiData module_name st (class_name, c) =
      .ok { code := st.code ++ "\x0d\n" ++ P,
            structs_map :=
              if c.typedef.getD false then
                ainsert st.structs_map (az_pfx ++ class_name) { typedef := some true }
              else st.structs_map,
            functions_map := st.functions_map } ∧
    (∀ fn_name (f : ApiFn) (p2 : String),
      patch_get patches [module_name, class_name, fn_name] = some p2 →
      fnPatchMarked f "dll" = true →
      function_fn_body patches module_name class_name fn_name f = p2) := by
  constructor
  · unfold process_class
    simp only [hp, hm, Option.isSome_some, Option.getD_some, and_self, if_true,
      eq_self_iff_true]
    rfl
  · intro fn_name f p2 hp2 hf2
    unfold function_fn_body
    rw [hp2, hf2]
    rfl

/-- Claim C3 (counterexample to the unamended claim): with overrides
registered at both class and member scope and both marked, the emitted code
holds the class-scope text, the member-scope text is absent, and no function
was registered — the member-scope override did not win. -/
theorem member_patch_skipped_cex :
    (match process_class dllPatchesBoth [] "m" ⟨"", [], []⟩ ("C", classBothPatched) with
     | .ok stf => strContains stf.code "CLASSPATCH" &&
         !(strContains stf.code "MEMBERPATCH") && (stf.functions_map == [])
     | .error _ => false) = true := by
  decide

/-- Claim C3 (witness): the amended precedence theorem applied to the
two-scope patch table. -/
theorem class_patch_wins_witness :
    process_class dllPatchesBoth [] "m" ⟨"", [], []⟩ ("C", classBothPatched) =
      .ok { code := "" ++ "\x0d\n" ++ "CLASSPATCH",
            structs_map :=
              if classBothPatched.typedef.getD false then
                ainsert ([] : SMap) (az_pfx ++ "C") { typedef := some true }
              else ([] : SMap),
            functions_map := [] } :=
  (class_patch_wins_amended dllPatchesBoth [] "m" ⟨"", [], []⟩ "C" classBothPatched
    (show patch_get dllPatchesBoth ["m", "C"] = some "CLASSPATCH" by decide)
    (by decide)).1

/-- Claim C4 (divergence): an entry whose only declared field type is the
primitive `u8` is nevertheless deferred by pass 0 — the pass prefixes the
base type with `"Az"` before the primitive test, so no struct or enum entry
with fields is ever admitted in pass 0; typedef entries are admitted
immediately, and the worklist loop later admits the deferred entry. -/
theorem pass0_prefix_bug :
    (∀ t ∈ blockedFieldTypes entPrimField,
       analyze_type t = .ok ("", t, "") ∧ is_primitive_arg t = true) ∧
    typedefTruthy entPrimField = false ∧ boxedTruthy entPrimField = false ∧
    sortPass0 mapPrimField = .ok ([], mapPrimField) ∧
    sortPass0 mapTypedefOnly = .ok (mapTypedefOnly, []) ∧
    sort_structs_map mapPrimField = .ok (mapPrimField, forward_delcarations) := by
  decide

/-- Claim C5: a duplicate-free, well-formed map containing a genuine unbroken
value-embedding cycle makes `sort_structs_map` return the iteration-cap
exception, whose unresolved set still holds every member of the cycle. -/
theorem cyclic_map_raises {m : SMap} {S : List String}
    (hnd : (alKeys m).Nodup) (hwf : wellFormedMap m = true)
    (hbs : blocked_set m S = true) :
    ∃ nfF, sort_structs_map m = .error (cyclic_msg nfF) ∧ ∀ k ∈ S, k ∈ alKeys nfF := by
  unfold blocked_set at hbs
  rw [Bool.and_eq_true] at hbs
  obtain ⟨hSne0, hall⟩ := hbs
  rw [List.all_eq_true] at hall
  have hwfall : ∀ p ∈ m, wellFormedEntry p.2 = true := by
    intro p hp
    exact List.all_eq_true.mp hwf p hp
  have hS : ∀ p ∈ m.filter (fun p => S.contains p.1), blockedPair S p := by
    intro p hp
    obtain ⟨a, b⟩ := p
    obtain ⟨hpm, hpS⟩ := List.mem_filter.mp hp
    have hmem : a ∈ S := List.mem_of_elem_eq_true hpS
    have h1 := hall a hmem
    rw [alookup_of_mem_nodup hpm hnd] at h1
    simp only [Bool.and_eq_true, Bool.not_eq_true'] at h1
    exact ⟨h1.1.1, h1.1.2, h1.2, hwfall (a, b) hpm⟩
  have hcover : ∀ k ∈ S, ∃ e2, (k, e2) ∈ m.filter (fun p => S.contains p.1) := by
    intro k hk
    have h1 := hall k hk
    cases hq : alookup m k with
    | none => rw [hq] at h1; cases h1
    | some e =>
      refine ⟨e, List.mem_filter.mpr ⟨alookup_eq_some_mem hq, ?_⟩⟩
      exact List.elem_eq_true_of_mem hk
  have hSsetne : m.filter (fun p => S.contains p.1) ≠ [] := by
    obtain ⟨a, haS⟩ : ∃ a, a ∈ S := by
      cases S with
      | nil => simp at hSne0
      | cons a r => exact ⟨a, List.mem_cons_self a r⟩
    obtain ⟨e2, he2⟩ := hcover a haS
    intro hc
    rw [hc] at he2
    cases he2
  have hnd0 : (alKeys ([] : SMap) ++ (alKeys ([] : SMap) ++ alKeys m)).Nodup := by
    simpa [alKeys] using hnd
  obtain ⟨s0, nf0, hfold, hdisj0, hsub0, hnfE0⟩ :=
    pass0_C5 hS hcover m [] [] hwfall (fun k _ => rfl)
      (fun p hp => Or.inr (List.mem_filter.mp hp).1)
      (fun p hp => absurd hp (List.not_mem_nil p)) hnd0
  obtain ⟨hg0, hperm0⟩ := pass0_invariant m [] [] hnd0 goodOrder_nil hfold
  have hperm0' : List.Perm (s0 ++ nf0) m := by
    refine hperm0.trans ?_
    simp
  have hnd1 : (alKeys s0 ++ alKeys nf0).Nodup := by
    rw [← alKeys_append]
    exact (List.Perm.nodup_iff (hperm0'.map Prod.fst)).mpr hnd
  obtain ⟨nfF, hloop, hsubF⟩ := loop_C5 hS hcover hSsetne 500 s0 nf0 hg0 hdisj0 hsub0 hnfE0 hnd1
  refine ⟨nfF, ?_, ?_⟩
  · unfold sort_structs_map
    have hp0 : sortPass0 m = .ok (s0, nf0) := hfold
    rw [hp0]
    simp only [exceptBind_ok]
    rw [hloop]
    exact exceptBind_error _ _
  · intro k hk
    obtain ⟨e2, he2⟩ := hcover k hk
    exact List.mem_map.mpr ⟨(k, e2), hsubF _ he2, rfl⟩

/-- Claim C5 (witness): the cycle theorem applied to the two-entry cyclic
map. -/
theorem cyclic_map_raises_witness :
    ∃ nfF, sort_structs_map mapCycle = .error (cyclic_msg nfF) ∧
      ∀ k ∈ ["AzA", "AzB"], k ∈ alKeys nfF :=
  cyclic_map_raises (by decide) (by decide) (by decide)

/-- Claim C6: argument lowering is independent of the registry when every
argument base type is primitive; the registry scan equals the first match of
the flattened module/class declaration order against the declared name or
alias; and an argument whose base type is neither primitive nor registered
makes `fn_args_c_api` return an error. -/
theorem resolution_order (f : ApiFn) (cn cpn : String) (selfArg : Bool) (api : ApiData) :
    (∀ (apiB : ApiData),
      (∀ an at2, (an, at2) ∈ f.fn_args.getD [] → an ≠ "self" →
        ∃ st b en, analyze_type at2 = .ok (st, b, en) ∧ is_primitive_arg b = true) →
      fn_args_c_api f cn cpn selfArg api = fn_args_c_api f cn cpn selfArg apiB) ∧
    (∀ n, search_for_class_by_rust_class_name api n =
      ((allClasses api).find? (matchesName n)).map (fun x => (x.1, x.2.1))) ∧
    (∀ an at2 st b en, (an, at2) ∈ f.fn_args.getD [] → an ≠ "self" →
      analyze_type at2 = .ok (st, b, en) → is_primitive_arg b = false →
      search_for_class_by_rust_class_name api b = none →
      ∃ msg, fn_args_c_api f cn cpn selfArg api = .error msg) :=
  ⟨fun apiB hc => fn_args_c_api_prim_independent f cn cpn selfArg api apiB hc,
   fun n => search_eq_find api n,
   fun an at2 st b en hm hs ha hp hse =>
     fn_args_c_api_unresolved f cn cpn selfArg api hm hs ha hp hse⟩

/-- Claim C6 (witness): the resolution theorem applied to a one-class
registry, a primitive-argument function and an unresolvable-argument
function. -/
theorem resolution_order_witness :
    fn_args_c_api fnPrimArgs "C" "AzC" false apiOneClass =
      fn_args_c_api fnPrimArgs "C" "AzC" false [] ∧
    search_for_class_by_rust_class_name apiOneClass "C" =
      ((allClasses apiOneClass).find? (matchesName "C")).map (fun x => (x.1, x.2.1)) ∧
    (∃ msg, fn_args_c_api fnBadArg "C" "AzC" false apiOneClass = .error msg) := by
  refine ⟨(resolution_order fnPrimArgs "C" "AzC" false apiOneClass).1 [] ?_,
    (resolution_order fnPrimArgs "C" "AzC" false apiOneClass).2.1 "C",
    (resolution_order fnBadArg "C" "AzC" false apiOneClass).2.2 "a" "Nope" "" "Nope" ""
      (by decide) (by decide) (by decide) (by decide) (by decide)⟩
  intro an at2 hm hs
  have hax : an = "x" ∧ at2 = "u8" := by
    simpa [fnPrimArgs, Option.getD_some, List.mem_singleton, Prod.mk.injEq] using hm
  exact ⟨"", "u8", "", by rw [hax.2]; decide⟩

/-- Claim C7 (amended): for a stack-allocated class that is not copyable, not
const and not a typedef, the destructor section always registers the delete
function; the deep-copy function is additionally registered exactly when the
class is clonable and its Rust alias carries no lifetime — with a lifetime or
without clonability, delete is the only registration. -/
theorem dtor_clone_amended (class_name class_ptr_name rust_class_name lifetime : String)
    (c : ApiClass) (class_can_be_cloned : Bool)
    (st : String × AList (String × String))
    (hwf : c.destructor.isSome = true ∨ class_is_small_enum c = false ∨
      c.external.isSome = true) :
    ∃ code2 fm2,
      dtor_section class_name class_ptr_name rust_class_name lifetime c
        true false false false class_can_be_cloned st = .ok (code2, fm2) ∧
      alContains fm2 (to_snake_case class_ptr_name ++ "_delete") = true ∧
      ((class_can_be_cloned = true ∧ lifetime = "") →
        alContains fm2 (to_snake_case class_ptr_name ++ "_deep_copy") = true) ∧
      (¬(class_can_be_cloned = true ∧ lifetime = "") →
        fm2 = ainsert st.2 (to_snake_case class_ptr_name ++ "_delete")
          ("object: &mut " ++ class_ptr_name, "")) := by
  unfold dtor_section
  simp only [eq_self_iff_true, if_true, Bool.false_eq_true, if_false]
  simp only [Bool.or_self]
  cases hdt : c.destructor with
  | some d =>
    by_cases hcl : class_can_be_cloned = true ∧ lifetime = ""
    · simp only [exceptPure, exceptBind_ok, if_pos hcl]
      refine ⟨_, _, rfl, ?_, fun _ => ?_, fun hn => absurd hcl hn⟩
      · exact alContains_ainsert_mono _ _ (alContains_ainsert_self _ _ _)
      · exact alContains_ainsert_self _ _ _
    · simp only [exceptPure, exceptBind_ok, if_neg hcl]
      exact ⟨_, _, rfl, alContains_ainsert_self _ _ _, fun hc => absurd hc hcl, fun _ => rfl⟩
  | none =>
    cases hse : class_is_small_enum c with
    | false =>
      by_cases hcl : class_can_be_cloned = true ∧ lifetime = ""
      · simp only [hse, Bool.false_eq_true, if_false, exceptPure, exceptBind_ok, if_pos hcl]
        refine ⟨_, _, rfl, ?_, fun _ => ?_, fun hn => absurd hcl hn⟩
        · exact alContains_ainsert_mono _ _ (alContains_ainsert_self _ _ _)
        · exact alContains_ainsert_self _ _ _
      · simp only [hse, Bool.false_eq_true, if_false, exceptPure, exceptBind_ok, if_neg hcl]
        exact ⟨_, _, rfl, alContains_ainsert_self _ _ _, fun hc => absurd hc hcl, fun _ => rfl⟩
    | true =>
      have hext : c.external.isSome = true := by
        rcases hwf with h | h | h
        · rw [hdt] at h; cases h
        · rw [hse] at h; cases h
        · exact h
      obtain ⟨ext, hx⟩ := Option.isSome_iff_exists.mp hext
      by_cases hcl : class_can_be_cloned = true ∧ lifetime = ""
      · simp only [hse, if_true, hx, keyGet_some, exceptPure, exceptBind_ok, if_pos hcl]
        refine ⟨_, _, rfl, ?_, fun _ => ?_, fun hn => absurd hcl hn⟩
        · exact alContains_ainsert_mono _ _ (alContains_ainsert_self _ _ _)
        · exact alContains_ainsert_self _ _ _
      · simp only [hse, if_true, hx, keyGet_some, exceptPure, exceptBind_ok, if_neg hcl]
        exact ⟨_, _, rfl, alContains_ainsert_self _ _ _, fun hc => absurd hc hcl, fun _ => rfl⟩

set_option maxRecDepth 10000 in
/-- Claim C7 (counterexample to the unamended claim): a clonable,
stack-allocated, non-const, non-typedef, non-copy class whose Rust alias
carries a lifetime gets a delete function but no deep-copy function. -/
theorem deep_copy_lifetime_cex :
    class_is_stack_allocated classLifetime = true ∧
    classLifetime.const = none ∧ classLifetime.typedef = none ∧
    (classLifetime.derive.getD []).contains "Copy" = false ∧
    classLifetime.clone.getD true = true ∧
    (match process_class [] [] "m" ⟨"", [], []⟩ ("C", classLifetime) with
     | .ok stf => alContains stf.functions_map "az_c_delete" &&
         !(alContains stf.functions_map "az_c_deep_copy")
     | .error _ => false) = true := by
  decide

/-- Claim C7 (witness): the amended destructor theorem applied with an empty
lifetime, where both delete and deep-copy are registered. -/
theorem dtor_clone_witness :
    ∃ code2 fm2,
      dtor_section "C" "AzC" "C" "" classLifetime true false false false true ("", []) =
        .ok (code2, fm2) ∧
      alContains fm2 (to_snake_case "AzC" ++ "_delete") = true ∧
      ((true = true ∧ ("" : String) = "") →
        alContains fm2 (to_snake_case "AzC" ++ "_deep_copy") = true) ∧
      (¬(true = true ∧ ("" : String) = "") →
        fm2 = ainsert (("", ([] : AList (String × String))) : String × AList (String × String)).2
          (to_snake_case "AzC" ++ "_delete") ("object: &mut " ++ "AzC", "")) :=
  dtor_clone_amended "C" "AzC" "C" "" classLifetime true ("", [])
    (Or.inr (Or.inl (by decide)))

/-- Claim C8 (amended): applying `analyze_type` to an extracted base name
returns it unchanged with empty prefix and suffix, provided the base has no
remaining leading indirection marker, no surrounding whitespace and no
bracketed array form. -/
theorem analyze_base_fixed (s st b en : String)
    (h : analyze_type s = .ok (st, b, en))
    (h1 : strStartsWith b "&mut" = false) (h2 : strStartsWith b "&" = false)
    (h3 : strStartsWith b "*const" = false) (h4 : strStartsWith b "*mut" = false)
    (h5 : strStrip b = b)
    (h6 : (strStartsWith b "[" && strEndsWith b "]") = false) :
    analyze_type b = .ok ("", b, "") := by
  unfold analyze_type
  simp only [h1, h2, h3, h4, Bool.false_eq_true, if_false]
  rw [h5]
  simp only [h6, Bool.false_eq_true, if_false]

/-- Claim C8 (counterexample to the unamended claim): `"&*mut x"` parses to
base `"*mut x"`, and re-analysing that base strips a further marker instead
of returning it unchanged — the parse is not idempotent. -/
theorem analyze_reparse_cex :
    analyze_type "&*mut x" = .ok ("&", "*mut x", "") ∧
    analyze_type "*mut x" = .ok ("*mut ", "x", "") ∧
    ¬(analyze_type "*mut x" = .ok ("", "*mut x", "")) := by
  decide

/-- Claim C8 (witness): the amended fixed-point theorem applied to the base
extracted from `"&mut Foo"`. -/
theorem analyze_base_fixed_witness :
    analyze_type "Foo" = .ok ("", "Foo", "") :=
  analyze_base_fixed "&mut Foo" "&mut " "Foo" ""
    (show analyze_type "&mut Foo" = .ok ("&mut ", "Foo", "") by decide)
    (by decide) (by decide) (by decide) (by decide) (by decide) (by decide)

/-- Claim C9: the generator registers, for every boxed-opaque non-const class
declaring an external path, a structs-map entry carrying that path at its
pointer name; and on any duplicate-free structs map, each external entry
yields exactly one layout-assertion pair, and the generated size-test text
contains that entry's assertion line. -/
theorem size_test_one_assert :
    (∀ (class_name class_ptr_name struct_doc : String) (c : ApiClass) (ext : String)
       (treat_external_as_ptr : Bool) (struct_derive : List String) (code : String)
       (sm : SMap),
       c.external = some ext → c.const = none →
       alookup (decl_section class_name class_ptr_name struct_doc c true
         treat_external_as_ptr struct_derive (code, sm)).2 class_ptr_name =
         some { external := some ext, derive := some struct_derive, doc := some struct_doc,
                struct := some [("ptr", { type? := some "*mut c_void" })] }) ∧
    (∀ (sm : SMap), (alKeys sm).Nodup →
      ∀ (k : String) (e : SMEntry) (ext : String), (k, e) ∈ sm → e.external = some ext →
        (sizeTestAssertPairs sm).count (ext, k) = 1 ∧
        ∀ (patches : PatchMap) (apiDataAll : List (String × ApiData)) (out : String),
          generate_size_test patches apiDataAll sm = .ok out →
          ∃ pre post, out = pre ++ (assert_line (ext, k) ++ post)) := by
  constructor
  · intro class_name class_ptr_name struct_doc c ext te sde code sm hext hconst
    exact decl_section_boxed class_name class_ptr_name struct_doc c te sde code sm hext hconst
  · intro sm hnd k e ext hm hext
    refine ⟨assertPairs_count hnd hm hext, ?_⟩
    intro patches apiDataAll out hgen
    refine sizeTest_contains hgen ?_
    exact List.mem_filterMap.mpr ⟨(k, e), hm, by rw [hext]; rfl⟩

set_option maxRecDepth 10000 in
/-- Claim C9 (witness): the size-test theorem applied to a one-entry boxed
structs map and its generated artifact. -/
theorem size_test_one_assert_witness :
    (alookup (decl_section "Foo" "AzFoo" "doc" classBoxedExt true false [] ("", [])).2
        "AzFoo" =
      some { external := some "azul_impl::Foo", derive := some ([] : List String),
             doc := some "doc",
             struct := some [("ptr", { type? := some "*mut c_void" })] }) ∧
    ((sizeTestAssertPairs smBoxedExt).count ("azul_impl::Foo", "AzFoo") = 1 ∧
      ∃ pre post, sizeTestOut = pre ++ (assert_line ("azul_impl::Foo", "AzFoo") ++ post)) := by
  constructor
  · exact size_test_one_assert.1 "Foo" "AzFoo" "doc" classBoxedExt "azul_impl::Foo" false []
      "" [] (by decide) (by decide)
  · have h2 := size_test_one_assert.2 smBoxedExt (by decide) "AzFoo" entBoxedExt
      "azul_impl::Foo" (by decide) (by decide)
    exact ⟨h2.1, h2.2 [] apiVerList sizeTestOut (by decide)⟩

/-- Claim C10: on a duplicate-free map, whenever `sort_structs_map` returns
normally its output is a permutation of the input — the same entries, each
exactly once, none rewritten — and every key looks up to its unmodified input
entry. -/
theorem sort_preserves_entries {m out : SMap} {fwd : AList String}
    (hnd : (alKeys m).Nodup) (h : sort_structs_map m = .ok (out, fwd)) :
    List.Perm out m ∧ ∀ k, alookup out k = alookup m k := by
  obtain ⟨_, hperm, _⟩ := sort_structs_map_good hnd h
  refine ⟨hperm, ?_⟩
  intro k
  exact alookup_eq_of_perm hperm ((hperm.map Prod.fst).nodup_iff.mpr hnd) k

/-- Claim C10 (witness): the preservation theorem applied to a one-entry
map. -/
theorem sort_preserves_entries_witness :
    List.Perm mapSmall mapSmall ∧ ∀ k, alookup mapSmall k = alookup mapSmall k :=
  sort_preserves_entries (by decide)
    (show sort_structs_map mapSmall = .ok (mapSmall, forward_delcarations) by decide)

end AzGen

